import Mathlib

/-!
Verification of the `slurm_submit` package (a SLURM submission-script
compiler) against its natural-language specification.

The development shallowly embeds the Python sources:

* `slurm_submit/backup.py` — numbered rotating backups over an explicit
  file-system state (`Disk`), with the path arithmetic of `os.path`
  (`dirname` / `basename` / `join`) modelled on character lists and the
  zero-padded index formatting (`f"{i:0{width}d}"`) modelled via decimal
  digits.
* `slurm_submit/core.py` / `slurm_submit/manifest.py` — input resolution
  and manifest creation, with fallible code returning `Except`.
* `slurm_submit/modules/dalton.py` — the stateful multi-token parser with
  sticky `.pot` modifiers, and its manifest reader.
* `slurm_submit/sbatch.py` — the `#SBATCH` header emitter, modelled as the
  list of chunks written to the output buffer.
* `slurm_submit/cli.py` — job-name / manifest-path selection.

Python `assert` statements that merely restate parameter types are
enforced by the Lean types and are not repeated; value-level assertions
that are observable (e.g. `assert len(tokens) > 0` in the Dalton token
parser) are modelled as a distinct `SubmitErr.assertion` outcome, since
`cli.main` catches only `UsageError`/`SubmitError` and an
`AssertionError` escapes with a traceback.
-/

namespace SlurmSubmit

/-- Fatal-error kinds of `core.py`: `UsageError` (a subclass of
`SubmitError`), plain `SubmitError`, and an escaped Python
`AssertionError` (not caught by `cli.main`). -/
inductive SubmitErr where
  | usage (msg : String)
  | general (msg : String)
  | assertion (msg : String)
deriving DecidableEq, Repr

instance {e a : Type} [DecidableEq e] [DecidableEq a] : DecidableEq (Except e a)
  | .error x, .error y =>
    decidable_of_iff (x = y) ⟨fun h => by rw [h], fun h => by injection h⟩
  | .error _, .ok _ => isFalse (fun h => Except.noConfusion h)
  | .ok _, .error _ => isFalse (fun h => Except.noConfusion h)
  | .ok x, .ok y =>
    decidable_of_iff (x = y) ⟨fun h => by rw [h], fun h => by injection h⟩

/-! ## File-system state for the backup component

`backup.py` observes and mutates the file system through
`os.path.isfile` / `os.path.exists`, `os.remove`, `os.rename`,
`os.open(..., O_CREAT)` and `os.makedirs`.  We model the regular files as
an association list from path to content (a `Nat` tag, enough to track
which displaced version of the target ended up where) and the set of
directories as a list of paths. -/

/-- Regular files: association list from path to content tag.  Lookup
returns the first binding, and every mutation removes stale bindings
first, so the list behaves as a finite map. -/
abbrev Files := List (String × Nat)

/-- Content of regular file `p`, if it exists (`os.path.isfile`). -/
def fsGet (fs : Files) (p : String) : Option Nat :=
  (fs.find? (fun e => e.1 = p)).map (·.2)

/-- Existence test for a regular file. -/
def fsExists (fs : Files) (p : String) : Bool :=
  (fsGet fs p).isSome

/-- `os.remove p` (also used for the unconditional cleanup of the lock
file; removing an absent path leaves the state unchanged). -/
def fsRemove (fs : Files) (p : String) : Files :=
  fs.filter (fun e => e.1 ≠ p)

/-- `os.rename src dst`: moves the content of `src` to `dst`,
overwriting `dst`.  `backup.py` only calls it on an existing `src`; on an
absent `src` we leave the state unchanged. -/
def fsRename (fs : Files) (src dst : String) : Files :=
  match fsGet fs src with
  | none => fs
  | some v => fsRemove (fsRemove fs src) dst ++ [(dst, v)]

/-- Creating / truncating a file with content tag `v`. -/
def fsWrite (fs : Files) (p : String) (v : Nat) : Files :=
  fsRemove fs p ++ [(p, v)]

/-- The full disk state: regular files plus directories. -/
structure Disk where
  files : Files
  dirs : List String
deriving DecidableEq, Repr

/-! ## Decimal formatting (`str(n)` and `f"{n:0{width}d}"`) -/

/-- The character of a single decimal digit. -/
def decDigitChar : Nat → Char
  | 0 => '0' | 1 => '1' | 2 => '2' | 3 => '3' | 4 => '4'
  | 5 => '5' | 6 => '6' | 7 => '7' | 8 => '8' | 9 => '9'
  | _ => '*'

/-- Least-significant-first decimal digits, by structural (fuel)
recursion so that concrete instances reduce in the kernel; proved equal
to `Nat.digits 10` below. -/
def decDigitsAux : Nat → Nat → List Nat
  | 0, _ => []
  | _ + 1, 0 => []
  | fuel + 1, n + 1 => (n + 1) % 10 :: decDigitsAux fuel ((n + 1) / 10)

/-- Least-significant-first decimal digits of `n`. -/
def decDigits (n : Nat) : List Nat := decDigitsAux n n

/-- Characters of Python `str(n)` for a natural `n`: most-significant
decimal digit first. -/
def decChars (n : Nat) : List Char :=
  if n = 0 then ['0'] else ((decDigits n).map decDigitChar).reverse

/-- Python `str(n)`. -/
def decString (n : Nat) : String := ⟨decChars n⟩

/-- Characters of Python `f"{n:0{w}d}"`: `str(n)` left-padded with `'0'`
to width `w` (never truncated). -/
def padChars (w n : Nat) : List Char :=
  List.replicate (w - (decChars n).length) '0' ++ decChars n

/-- Python `f"{n:0{w}d}"`. -/
def padNum (w n : Nat) : String := ⟨padChars w n⟩

/-- Numeric value of a decimal digit character (decoder used to prove
`padNum` injective). -/
def digitVal (c : Char) : Nat := c.toNat - 48

/-! ## `os.path` helpers (external collaborators of `backup.py`)

Modelled after CPython's `posixpath`: `basename` is everything after the
last `'/'`; `dirname` is everything up to and including the last `'/'`,
with trailing slashes stripped unless the result consists of slashes
only; `join a b` (for a non-absolute `b`) inserts a `'/'` unless `a` is
empty or already ends with one. -/

/-- Characters after the last `'/'` (CPython `posixpath.basename`). -/
def basenameChars (cs : List Char) : List Char :=
  (cs.reverse.takeWhile (fun c => c ≠ '/')).reverse

/-- CPython `posixpath.dirname` on characters. -/
def dirnameChars (cs : List Char) : List Char :=
  let head := (cs.reverse.dropWhile (fun c => c ≠ '/')).reverse
  if head = [] ∨ head.all (fun c => c = '/') then head
  else (head.reverse.dropWhile (fun c => c = '/')).reverse

/-- `os.path.basename`. -/
def pyBasename (p : String) : String := ⟨basenameChars p.data⟩

/-- `os.path.dirname`. -/
def pyDirname (p : String) : String := ⟨dirnameChars p.data⟩

/-- `os.path.join a b` for the calls made by `backup.py` (the second
component, a basename or a backup-directory name, is never absolute). -/
def pyJoin (a b : String) : String :=
  if b.data.head? = some '/' then b
  else if a.data = [] ∨ a.data.getLast? = some '/' then a ++ b
  else a ++ "/" ++ b

/-! ## `backup.py` -/

/-- Name of the numbered backup sibling `f"{base}.{idx:0{width}d}"`. -/
def siblingName (backupBase : String) (width idx : Nat) : String :=
  backupBase ++ "." ++ padNum width idx

/-- Body of the rotation loop of `backup._rotate_backups`: rename
`.{idx}` to `.{idx + 1}` if it exists. -/
def rotateStep (backupBase : String) (width : Nat) (fs : Files) (idx : Nat) : Files :=
  let src := siblingName backupBase width idx
  let dst := siblingName backupBase width (idx + 1)
  if fsExists fs src then fsRename fs src dst else fs

/-- `backup._rotate_backups`: delete `.{max_backups}` if present, then
for `idx` from `max_backups - 1` down to `0` rename `.{idx}` to
`.{idx+1}` if it exists.  (The `assert max_backups > 0` of the source is
reflected as a `1 ≤ maxBackups` hypothesis in the theorems.) -/
def rotate_backups (backupBase : String) (maxBackups : Nat) (fs : Files) : Files :=
  let width := (decString maxBackups).length
  let last := siblingName backupBase width maxBackups
  let fs := if fsExists fs last then fsRemove fs last else fs
  (List.range maxBackups).reverse.foldl (rotateStep backupBase width) fs

/-- `backup.backup_existing_file`: no-op unless `target_path` names an
existing regular file; otherwise resolve the backup base (creating the
backup directory when requested), create the lock file, rotate, move the
live target to index `0`, and remove the lock file.  The `flock`
acquisition is advisory and is modelled on its success path (on failure
the source skips the rotation, which claims do not exercise). -/
def backup_existing_file (targetPath : String) (useBackupDir : Bool)
    (backupDirName : String) (maxBackups : Nat) (disk : Disk) : Disk :=
  if targetPath = "" ∨ fsExists disk.files targetPath = false then disk
  else
    let dirPath := if pyDirname targetPath = "" then "." else pyDirname targetPath
    let baseName := pyBasename targetPath
    let backupDir := pyJoin dirPath backupDirName
    let dirs := if useBackupDir then backupDir :: disk.dirs else disk.dirs
    let backupBase :=
      if useBackupDir then pyJoin backupDir baseName else pyJoin dirPath baseName
    let width := (decString maxBackups).length
    let lockPath := backupBase ++ ".lock"
    let fs := disk.files
    let fs := if fsExists fs lockPath then fs else fsWrite fs lockPath 0
    let fs := rotate_backups backupBase maxBackups fs
    let fs := fsRename fs targetPath (siblingName backupBase width 0)
    let fs := fsRemove fs lockPath
    { files := fs, dirs := dirs }

/-- The round-trip scenario of the spec: starting from an empty disk,
re-create the target (with a fresh content tag `k` on the `k`-th
iteration, counted from 0) and back it up, `k` times in total.
`use_backup_dir` is false: the numbered backups are siblings of the
target. -/
def runBackups (target : String) (maxBackups : Nat) : Nat → Disk
  | 0 => { files := [], dirs := [] }
  | k + 1 =>
    let disk := runBackups target maxBackups k
    backup_existing_file target false "backup" maxBackups
      { disk with files := fsWrite disk.files target k }

/-- Specification of the file state reached after `k` rotations of a
freshly re-created target (proved below): the content displaced by the
`k`-th call sits at index `0`, the oldest surviving content at the
highest index. -/
def canonFiles (base : String) (w k : Nat) : Files :=
  (List.range k).map (fun i => (siblingName base w (k - 1 - i), i))

/-- Intermediate state of the rotation loop during the `(k+1)`-th call,
with indices `k - 1` down to `j` already shifted up by one (proof
artifact for the loop invariant). -/
def preFiles (base : String) (w k j : Nat) : Files :=
  (List.range j).map (fun i => (siblingName base w (j - 1 - i), (k - j) + i))
    ++ [(base, k), (base ++ ".lock", 0)]
    ++ (List.range (k - j)).map (fun i => (siblingName base w (k - i), i))

/-! ## World model for input resolution

`manifest.py`, `core.py` and `modules/dalton.py` observe the file system
through `os.path.isfile`, reading a file's lines, and
`os.path.realpath`.  A `World` carries the regular files with their
lines (each line as produced by Python file iteration) and the realpath
function (an external path helper, kept abstract). -/

structure World where
  files : List (String × List String)
  realp : String → String

/-- `os.path.isfile` in a `World`. -/
def isfile (w : World) (p : String) : Bool :=
  (w.files.find? (fun e => e.1 = p)).isSome

/-- The lines of file `p` (empty when absent; the callers below always
check existence first). -/
def readLines (w : World) (p : String) : List String :=
  ((w.files.find? (fun e => e.1 = p)).map (·.2)).getD []

/-! ## Python string helpers -/

/-- Python `s.endswith(p)`. -/
def strEndsWith (s p : String) : Bool := List.isSuffixOf p.data s.data

/-- Python `s.strip()` (ASCII whitespace). -/
def pyStrip (s : String) : String :=
  ⟨((s.data.dropWhile Char.isWhitespace).reverse.dropWhile Char.isWhitespace).reverse⟩

/-- Python `s.rstrip("\r")`. -/
def rstripCR (s : String) : String :=
  ⟨(s.data.reverse.dropWhile (fun c => c = '\r')).reverse⟩

/-- Python `s.rstrip("\r\n")`. -/
def rstripCRLF (s : String) : String :=
  ⟨(s.data.reverse.dropWhile (fun c => c = '\r' ∨ c = '\n')).reverse⟩

/-! ## `core.py` validators -/

/-- `core.validate_file_exists`. -/
def validate_file_exists (w : World) (filepath : String) : Except SubmitErr Unit :=
  if isfile w filepath then Except.ok ()
  else Except.error (.usage ("File not found: " ++ filepath))

/-- `core.validate_file_extension`. -/
def validate_file_extension (filepath : String) (allowed : List String) :
    Except SubmitErr Unit :=
  if allowed = [] then Except.ok ()
  else if allowed.any (fun ext => strEndsWith filepath ext) then Except.ok ()
  else Except.error (.usage ("Invalid extension for " ++ filepath
    ++ " (expected: " ++ String.intercalate " " allowed ++ ")"))

/-! ## `manifest.py` -/

/-- The list-comprehension of `resolve_inputs` over the manifest's
lines: `[line.strip().rstrip("\r") for line in fh if line.strip()]`. -/
def manifestInputs (w : World) (mf : String) : List String :=
  (readLines w mf).filterMap
    (fun line => if pyStrip line ≠ "" then some (rstripCR (pyStrip line)) else none)

/-- Body of the shared validation loop of `resolve_inputs`. -/
def validateOne (w : World) (inputExtensions : List String) (input : String) :
    Except SubmitErr Unit := do
  validate_file_exists w input
  if inputExtensions ≠ [] then validate_file_extension input inputExtensions
  else pure ()

/-- The branch of `manifest.resolve_inputs` that picks the raw input
list and the array-mode flag (manifest file, several positional tokens,
one token, or none). -/
def resolveRawInputs (w : World) (manifestFile : String) (positionalArgs : List String) :
    Except SubmitErr (List String × Bool) :=
  if manifestFile ≠ "" then do
    validate_file_exists w manifestFile
    pure (manifestInputs w manifestFile, true)
  else if 1 < positionalArgs.length then pure (positionalArgs, true)
  else if positionalArgs.length = 1 then pure ([positionalArgs.headD ""], false)
  else Except.error (.usage "No input files specified")

/-- `manifest.resolve_inputs`: raw resolution followed by the shared
existence / extension validation of every input. -/
def resolve_inputs (w : World) (manifestFile : String) (positionalArgs : List String)
    (inputExtensions : List String) : Except SubmitErr (List String × Bool) := do
  let (inputs, arrayMode) ← resolveRawInputs w manifestFile positionalArgs
  List.forM inputs (validateOne w inputExtensions)
  pure (inputs, arrayMode)

/-- Validity of one input as checked by the loop of `resolve_inputs`. -/
def validInput (w : World) (inputExtensions : List String) (x : String) : Prop :=
  isfile w x = true
    ∧ (inputExtensions ≠ [] →
        (inputExtensions.any (fun ext => strEndsWith x ext)) = true)

instance (w : World) (exts : List String) (x : String) :
    Decidable (validInput w exts x) := by
  unfold validInput
  infer_instance

/-- `manifest.create_manifest`, returning the path written to and the
written lines (one absolute path per input). -/
def create_manifest (w : World) (inputs : List String) (jobName customJobName : String) :
    String × List String :=
  let manifestPath :=
    if customJobName ≠ "" then customJobName else "." ++ jobName ++ ".manifest"
  (manifestPath, inputs.map (fun i => w.realp i ++ "\n"))

/-! ## `modules/dalton.py` — stateful multi-token parsing

Job records are kept exactly as the source keeps them: tab-joined
strings `f"{dal}\t{mol}\t{pot}\t{rst}"`, re-split on `"\t"` by the
retroactive-pot pass. -/

/-- Python `s.startswith(p)`. -/
def strStartsWith (s p : String) : Bool := List.isPrefixOf p.data s.data

/-- `DaltonModule._append_job`'s record format. -/
def mkJobLine (dal mol pot rst : String) : String :=
  dal ++ "\t" ++ mol ++ "\t" ++ pot ++ "\t" ++ rst

/-- Python `s.split("\t")` on characters. -/
def splitTabChars : List Char → List (List Char)
  | [] => [[]]
  | c :: rest =>
    let r := splitTabChars rest
    if c = '\t' then [] :: r
    else
      match r with
      | [] => [[c]]
      | h :: t => (c :: h) :: t

/-- Python `s.split("\t")`. -/
def splitTab (s : String) : List String :=
  (splitTabChars s.data).map (fun l => ⟨l⟩)

/-- Python `"\t".join(parts)`. -/
def joinTab : List String → String
  | [] => ""
  | [x] => x
  | x :: rest => x ++ "\t" ++ joinTab rest

/-- One iteration of `DaltonModule._retroactive_pot`: split the record,
fill in the pot field if it is empty, re-join. -/
def applyPotToLine (pot line : String) : String :=
  let parts := splitTab line
  if 3 ≤ parts.length ∧ parts.getD 2 "" = "" then joinTab (parts.set 2 pot)
  else line

/-- `DaltonModule._retroactive_pot`: apply `pot` to every record from
`startIdx` on whose pot field is still empty. -/
def retroactive_pot (jobs : List String) (pot : String) (startIdx : Nat) : List String :=
  jobs.mapIdx (fun idx line => if startIdx ≤ idx then applyPotToLine pot line else line)

/-- Parser state of `DaltonModule._build_from_tokens` (`self._jobs` plus
the local variables of the loop). -/
structure DaltonSt where
  jobs : List String
  current_dal : String
  current_dal_has_mol : Bool
  sticky_pot : String
  seg_start : Nat
  next_restart : String
  pending_global_restart : String
  pending_pot_before_dal : String
deriving DecidableEq, Repr

/-- Initial parser state (entering `_build_from_tokens` with `self._jobs
= jobs0`). -/
def initDaltonSt (jobs0 : List String) : DaltonSt :=
  { jobs := jobs0, current_dal := "", current_dal_has_mol := false,
    sticky_pot := "", seg_start := 0, next_restart := "",
    pending_global_restart := "", pending_pot_before_dal := "" }

/-- `DaltonModule._handle_dal_token` (together with the caller's
clearing of the pending pot and restart). -/
def handle_dal_token (w : World) (st : DaltonSt) (tok : String) :
    Except SubmitErr DaltonSt := do
  validate_file_exists w tok
  let current_dal := w.realp tok
  let sticky_pot :=
    if st.pending_pot_before_dal ≠ "" then st.pending_pot_before_dal else ""
  pure { st with
    current_dal := current_dal
    current_dal_has_mol := false
    sticky_pot := sticky_pot
    seg_start := st.jobs.length
    pending_pot_before_dal := ""
    next_restart := "" }

/-- `DaltonModule._handle_pot_token`. -/
def handle_pot_token (w : World) (st : DaltonSt) (tok : String) :
    Except SubmitErr DaltonSt := do
  validate_file_exists w tok
  let abs_pot := w.realp tok
  if st.current_dal = "" then
    pure { st with pending_pot_before_dal := abs_pot, sticky_pot := "" }
  else
    pure { st with
      jobs := retroactive_pot st.jobs abs_pot st.seg_start
      sticky_pot := abs_pot }

/-- The token dispatch of `DaltonModule._build_from_tokens`'s loop
body. -/
def processToken (w : World) (st : DaltonSt) (tok : String) :
    Except SubmitErr DaltonSt :=
  if strEndsWith tok ".dal" then handle_dal_token w st tok
  else if strEndsWith tok ".pot" then handle_pot_token w st tok
  else if strEndsWith tok ".tar.gz" then do
    validate_file_exists w tok
    let abs_rst := w.realp tok
    if st.current_dal ≠ "" then pure { st with next_restart := abs_rst }
    else pure { st with pending_global_restart := abs_rst }
  else if strEndsWith tok ".mol" then do
    validate_file_exists w tok
    if st.current_dal = "" then
      Except.error (.usage (".mol without a preceding .dal: " ++ tok))
    else
      let abs_mol := w.realp tok
      if st.next_restart ≠ "" then
        pure { st with
          jobs := st.jobs
            ++ [mkJobLine st.current_dal abs_mol st.sticky_pot st.next_restart]
          next_restart := ""
          current_dal_has_mol := true }
      else if st.pending_global_restart ≠ "" then
        pure { st with
          jobs := st.jobs
            ++ [mkJobLine st.current_dal abs_mol st.sticky_pot
                  st.pending_global_restart]
          pending_global_restart := ""
          current_dal_has_mol := true }
      else
        pure { st with
          jobs := st.jobs ++ [mkJobLine st.current_dal abs_mol st.sticky_pot ""]
          current_dal_has_mol := true }
  else
    Except.error
      (.usage ("Unsupported file type (expect .dal/.mol/.pot/.tar.gz): " ++ tok))

/-- `dalton._dal_contains_geometry`: any line matching
`^BASIS|^Atomtypes=` (a missing/unreadable file counts as `False`). -/
def dal_contains_geometry (w : World) (dalFile : String) : Bool :=
  (readLines w dalFile).any
    (fun line => strStartsWith line "BASIS" || strStartsWith line "Atomtypes=")

/-- `DaltonModule._finalize_dal_without_mol`. -/
def finalize_dal_without_mol (w : World) (st : DaltonSt) :
    Except SubmitErr (List String) :=
  if dal_contains_geometry w st.current_dal then
    let rst_use :=
      if st.next_restart ≠ "" then st.next_restart
      else if st.pending_global_restart ≠ "" then st.pending_global_restart
      else ""
    pure (st.jobs ++ [mkJobLine st.current_dal "" st.sticky_pot rst_use])
  else
    Except.error (.usage (".dal file without .mol: " ++ st.current_dal
      ++ " (embed geometry or provide .mol)"))

/-- `DaltonModule._build_from_tokens`, entered with `self._jobs = jobs0`
(non-empty when called from the manifest reader's fallback).  The
source's `assert len(tokens) > 0` is an observable AssertionError. -/
def build_from_tokens (w : World) (jobs0 : List String) (tokens : List String) :
    Except SubmitErr (List String) :=
  if tokens.length = 0 then Except.error (.assertion "tokens must not be empty")
  else do
    let st ← tokens.foldlM (processToken w) (initDaltonSt jobs0)
    if st.current_dal ≠ "" ∧ st.current_dal_has_mol = false then
      finalize_dal_without_mol w st
    else pure st.jobs

/-- Python `s.split()` (no argument: split on whitespace runs, no empty
fields), by fuel recursion on the character list. -/
def pyWsSplitAux : Nat → List Char → List (List Char)
  | 0, _ => []
  | _ + 1, [] => []
  | fuel + 1, c :: rest =>
    if c.isWhitespace then pyWsSplitAux fuel rest
    else (c :: rest.takeWhile (fun x => ¬ x.isWhitespace))
      :: pyWsSplitAux fuel (rest.dropWhile (fun x => ¬ x.isWhitespace))

/-- Python `s.split()`. -/
def pyWsSplit (s : String) : List String :=
  (pyWsSplitAux s.data.length s.data).map (fun l => ⟨l⟩)

/-- One line of `DaltonModule._read_manifest`: skip blank and `#` lines;
a line with at least two whitespace-separated fields is validated and
consumed as a pre-split record; any other line is collected for the
token-parser fallback.  The accumulator is `(records, fallback
tokens)`. -/
def manifest_line_step (w : World) (acc : List String × List String)
    (rawLine : String) : Except SubmitErr (List String × List String) :=
  let line := rstripCRLF rawLine
  if pyStrip line = "" ∨ strStartsWith (pyStrip line) "#" then pure acc
  else
    let fields := pyWsSplit line
    if 2 ≤ fields.length then
      let dal := fields.getD 0 ""
      let mol := fields.getD 1 ""
      let pot := if 2 < fields.length then fields.getD 2 "" else ""
      let rst := if 3 < fields.length then fields.getD 3 "" else ""
      if ¬ (strEndsWith dal ".dal" = true ∧ isfile w dal = true) then
        Except.error (.usage ("Invalid DAL in manifest: " ++ dal))
      else if ¬ (strEndsWith mol ".mol" = true ∧ isfile w mol = true) then
        Except.error (.usage ("Invalid MOL in manifest: " ++ mol))
      else if pot ≠ "" ∧ ¬ (strEndsWith pot ".pot" = true ∧ isfile w pot = true) then
        Except.error (.usage ("Invalid POT in manifest: " ++ pot))
      else if rst ≠ "" ∧ ¬ (strEndsWith rst ".tar.gz" = true ∧ isfile w rst = true) then
        Except.error (.usage ("Invalid RESTART in manifest: " ++ rst))
      else pure (acc.1 ++ [mkJobLine dal mol pot rst], acc.2)
    else pure (acc.1, acc.2 ++ [line])

/-- `DaltonModule._read_manifest`: scan the lines, then run the token
parser over the collected fallback lines (if any) with the records read
so far already in `self._jobs`. -/
def read_manifest (w : World) (filepath : String) : Except SubmitErr (List String) := do
  validate_file_exists w filepath
  let acc ← (readLines w filepath).foldlM (manifest_line_step w) ([], [])
  if acc.2 ≠ [] then build_from_tokens w acc.1 acc.2 else pure acc.1

/-- The source selection of `DaltonModule.build_jobs`: manifest reader
when a manifest file is configured, token parser otherwise. -/
def assembleJobs (w : World) (manifestFile : String) (positionalArgs : List String) :
    Except SubmitErr (List String) :=
  if manifestFile ≠ "" then read_manifest w manifestFile
  else build_from_tokens w [] positionalArgs

/-- `DaltonModule.build_jobs`: assemble, require at least one record,
array mode iff more than one. -/
def build_jobs (w : World) (manifestFile : String) (positionalArgs : List String) :
    Except SubmitErr (List String × Bool) := do
  let jobs ← assembleJobs w manifestFile positionalArgs
  if jobs.length < 1 then Except.error (.usage "No jobs assembled (check inputs)")
  else pure (jobs, decide (1 < jobs.length))

/-! ## `sbatch.emit_sbatch_header`

The emitter is modelled as the list of chunks passed to `out.write`, in
order (each chunk of the source ends in a newline).  The full header
text is the concatenation of the chunks.  `memMBCeil` stands for
`math.ceil(float(memory_gb) * 1024)` of the `gb_float` branch, whose
floating-point arithmetic is outside the embedding and is supplied as
data. -/

structure HeaderCtx where
  arrayMode : Bool
  jobName : String
  inputs : List String
  throttle : Nat
  outputDir : String
  logExtension : String
  nodes : Nat
  ntasks : Nat
  numCpus : Nat
  memoryGb : String
  memoryUnit : String
  memMBCeil : Nat
  partition : String
  timeLimit : String
  niceFactor : String
  nodeExclude : String

/-- `sbatch.emit_sbatch_header` as its list of written chunks. -/
def emit_sbatch_header (ctx : HeaderCtx) : List String :=
  let memoryDirective :=
    if ctx.memoryUnit = "gb_float" then decString ctx.memMBCeil ++ "MB"
    else ctx.memoryGb ++ "gb"
  ["#!/bin/bash\n",
    "#SBATCH --job-name=" ++ ctx.jobName ++ "\n"]
  ++ (if ctx.arrayMode then
        ["#SBATCH --output=\"/dev/null\"\n",
          "#SBATCH --array=1-" ++ decString ctx.inputs.length ++ "%"
            ++ decString ctx.throttle ++ "\n"]
      else
        ["#SBATCH --output=\"" ++ ctx.outputDir ++ "%x" ++ ctx.logExtension
          ++ "\"\n"])
  ++ ["#SBATCH --nodes=" ++ decString ctx.nodes ++ "\n",
      "#SBATCH --ntasks=" ++ decString ctx.ntasks ++ "\n",
      "#SBATCH --cpus-per-task=" ++ decString ctx.numCpus ++ "\n",
      "#SBATCH --mem=" ++ memoryDirective ++ "\n",
      "#SBATCH --partition=" ++ ctx.partition ++ "\n"]
  ++ (if ctx.timeLimit ≠ "" then ["#SBATCH --time=" ++ ctx.timeLimit ++ "\n"]
      else [])
  ++ (if ctx.niceFactor ≠ "" then ["#SBATCH --nice=" ++ ctx.niceFactor ++ "\n"]
      else [])
  ++ (if ctx.nodeExclude ≠ "" then
        ["#SBATCH --exclude=" ++ ctx.nodeExclude ++ "\n"]
      else [])
  ++ ["#SBATCH --export=NONE\n"]

/-- `cli._determine_job_name_and_manifest`.  The module's behaviour is
passed in explicitly: the `has_custom_*` capability flags and the values
its `determine_job_name` / `create_exec_manifest` / `job_name` methods
would return. -/
def determine_job_name_and_manifest (w : World) (metaName : String)
    (customJobName : String) (arrayMode : Bool) (manifestFile : String)
    (throttle : Nat) (inputs : List String)
    (hasCustomDetermineJobName : Bool) (moduleDetermineJobName : String)
    (moduleJobName : String → String)
    (hasCustomCreateExecManifest : Bool) (moduleCreateExecManifest : String → String) :
    String × String :=
  let jobName :=
    if customJobName ≠ "" then customJobName
    else if hasCustomDetermineJobName then moduleDetermineJobName
    else if arrayMode then
      metaName ++ "-array-" ++ decString inputs.length ++ "t" ++ decString throttle
    else moduleJobName (inputs.headD "")
  let execManifest :=
    if arrayMode then
      if hasCustomCreateExecManifest then moduleCreateExecManifest jobName
      else if manifestFile ≠ "" then manifestFile
      else (create_manifest w inputs jobName customJobName).1
    else ""
  (jobName, execManifest)

end SlurmSubmit

namespace SlurmSubmit

/-! ## Basic lemmas about the file-system model -/

theorem fsGet_append (l₁ l₂ : Files) (p : String) :
    fsGet (l₁ ++ l₂) p = (fsGet l₁ p).or (fsGet l₂ p) := by
  simp [fsGet, List.find?_append]
  cases List.find? (fun e => e.1 = p) l₁ <;> simp

theorem fsGet_nil (p : String) : fsGet [] p = none := rfl

theorem fsGet_cons (e : String × Nat) (l : Files) (p : String) :
    fsGet (e :: l) p = if e.1 = p then some e.2 else fsGet l p := by
  simp only [fsGet, List.find?_cons]
  by_cases h : e.1 = p <;> simp [h]

theorem fsRemove_cons (e : String × Nat) (l : Files) (p : String) :
    fsRemove (e :: l) p = if e.1 = p then fsRemove l p else e :: fsRemove l p := by
  simp only [fsRemove, List.filter_cons]
  by_cases h : e.1 = p <;> simp [h]

theorem fsRemove_append (l₁ l₂ : Files) (p : String) :
    fsRemove (l₁ ++ l₂) p = fsRemove l₁ p ++ fsRemove l₂ p := by
  simp [fsRemove, List.filter_append]

/-- Removing an absent key is a no-op. -/
theorem fsRemove_of_not_mem (l : Files) (p : String)
    (h : ∀ e ∈ l, e.1 ≠ p) : fsRemove l p = l := by
  simp only [fsRemove, List.filter_eq_self]
  intro e he
  simpa using h e he

/-- Looking up a key none of the entries carry gives `none`. -/
theorem fsGet_of_not_mem (l : Files) (p : String)
    (h : ∀ e ∈ l, e.1 ≠ p) : fsGet l p = none := by
  simp only [fsGet, Option.map_eq_none', List.find?_eq_none]
  intro e he
  simpa using h e he

/-! ## Decimal formatting lemmas -/

theorem decDigitsAux_eq (fuel n : Nat) (h : n ≤ fuel) :
    decDigitsAux fuel n = Nat.digits 10 n := by
  induction fuel generalizing n with
  | zero => interval_cases n; simp [decDigitsAux]
  | succ fuel ih =>
    cases n with
    | zero => simp [decDigitsAux]
    | succ n =>
      rw [decDigitsAux, Nat.digits_def' (by norm_num : (1 : Nat) < 10) (Nat.succ_pos n)]
      congr 1
      have hlt : (n + 1) / 10 < n + 1 := Nat.div_lt_self (Nat.succ_pos n) (by norm_num)
      exact ih _ (by omega)

theorem decDigits_eq_digits (n : Nat) : decDigits n = Nat.digits 10 n :=
  decDigitsAux_eq n n le_rfl

theorem digitVal_decDigitChar {d : Nat} (h : d < 10) :
    digitVal (decDigitChar d) = d := by
  interval_cases d <;> rfl

theorem decDigitChar_ne_zero_char {d : Nat} (h1 : d < 10) (h2 : d ≠ 0) :
    decDigitChar d ≠ '0' := by
  interval_cases d <;> simp_all [decDigitChar]

theorem decChars_head_of_ne_zero {n : Nat} (h : n ≠ 0) :
    ∃ c cs, decChars n = c :: cs ∧ c ≠ '0' := by
  have hl : Nat.digits 10 n ≠ [] := Nat.digits_ne_nil_iff_ne_zero.mpr h
  obtain ⟨a, l', hl'⟩ : ∃ a l', Nat.digits 10 n = l' ++ [a] :=
    ⟨(Nat.digits 10 n).getLast hl, (Nat.digits 10 n).dropLast,
      (List.dropLast_append_getLast hl).symm⟩
  have ha_mem : a ∈ Nat.digits 10 n := by rw [hl']; simp
  have ha10 : a < 10 := Nat.digits_lt_base (by norm_num) ha_mem
  have ha0 : a ≠ 0 := by
    have hg := Nat.getLast_digit_ne_zero 10 h
    have h1 : (Nat.digits 10 n).getLast? = some ((Nat.digits 10 n).getLast hl) :=
      List.getLast?_eq_getLast _ hl
    have h2 : (Nat.digits 10 n).getLast? = some a := by
      rw [hl']; exact List.getLast?_concat _
    rw [h1] at h2
    injection h2 with h3
    rw [← h3]
    exact hg
  refine ⟨decDigitChar a, ((l'.map decDigitChar).reverse), ?_, ?_⟩
  · simp [decChars, h, decDigits_eq_digits, hl']
  · exact decDigitChar_ne_zero_char ha10 ha0

theorem decode_decChars (n : Nat) :
    Nat.ofDigits 10 (((decChars n).map digitVal).reverse) = n := by
  by_cases h : n = 0
  · subst h; simp [decChars, digitVal, Nat.ofDigits]
  · have hmap : ((decChars n).map digitVal) = (Nat.digits 10 n).reverse := by
      simp only [decChars, h, if_false, decDigits_eq_digits, List.map_reverse,
        List.map_map]
      congr 1
      have hpt : ∀ d ∈ Nat.digits 10 n, (digitVal ∘ decDigitChar) d = id d := by
        intro d hd
        exact digitVal_decDigitChar (Nat.digits_lt_base (by norm_num) hd)
      rw [List.map_congr_left hpt, List.map_id]
    rw [hmap, List.reverse_reverse, Nat.ofDigits_digits]

theorem dropWhile_zero_replicate_append (k : Nat) (l : List Char) :
    (List.replicate k '0' ++ l).dropWhile (fun c => c = '0') =
      l.dropWhile (fun c => c = '0') := by
  induction k with
  | zero => simp
  | succ k ih => simp [List.replicate_succ, List.dropWhile_cons, ih]

theorem dropZeros_decChars {n : Nat} (h : n ≠ 0) :
    (decChars n).dropWhile (fun c => c = '0') = decChars n := by
  obtain ⟨c, cs, hc, hne⟩ := decChars_head_of_ne_zero h
  rw [hc, List.dropWhile_cons]
  simp [hne]

theorem padChars_inj {w m n : Nat} (h : padChars w m = padChars w n) : m = n := by
  have h' := congrArg (List.dropWhile (fun c => c = '0')) h
  rw [padChars, padChars, dropWhile_zero_replicate_append,
    dropWhile_zero_replicate_append] at h'
  by_cases hm : m = 0 <;> by_cases hn : n = 0
  · omega
  · exfalso
    obtain ⟨c, cs, hc, _⟩ := decChars_head_of_ne_zero hn
    rw [dropZeros_decChars hn, hm, hc] at h'
    simp [decChars] at h'
  · exfalso
    obtain ⟨c, cs, hc, _⟩ := decChars_head_of_ne_zero hm
    rw [dropZeros_decChars hm, hn, hc] at h'
    simp [decChars] at h'
  · rw [dropZeros_decChars hm, dropZeros_decChars hn] at h'
    have := congrArg (fun l => Nat.ofDigits 10 ((l.map digitVal).reverse)) h'
    simpa [decode_decChars] using this

theorem string_eq_iff_data {a b : String} : a = b ↔ a.data = b.data :=
  ⟨fun h => h ▸ rfl, String.ext⟩

theorem siblingName_data (base : String) (w i : Nat) :
    (siblingName base w i).data = base.data ++ '.' :: padChars w i := by
  simp only [siblingName, String.data_append, padNum]
  rw [List.append_assoc]
  rfl

theorem siblingName_inj {base : String} {w i j : Nat}
    (h : siblingName base w i = siblingName base w j) : i = j := by
  rw [string_eq_iff_data, siblingName_data, siblingName_data] at h
  have h' := List.append_cancel_left h
  have h'' : padChars w i = padChars w j := by injection h'
  exact padChars_inj h''

theorem siblingName_ne_base (base : String) (w i : Nat) :
    siblingName base w i ≠ base := by
  intro h
  rw [string_eq_iff_data, siblingName_data] at h
  have := congrArg List.length h
  simp at this

theorem mem_padChars_digit {w n : Nat} {c : Char}
    (h : c ∈ padChars w n) :
    c ∈ ['0', '1', '2', '3', '4', '5', '6', '7', '8', '9'] := by
  rw [padChars] at h
  rcases List.mem_append.mp h with h | h
  · have := List.eq_of_mem_replicate h
    subst this; decide
  · by_cases hn : n = 0
    · subst hn
      simp [decChars] at h
      subst h; decide
    · simp only [decChars, hn, if_false, List.mem_reverse, List.mem_map] at h
      obtain ⟨d, hd, rfl⟩ := h
      rw [decDigits_eq_digits] at hd
      have := Nat.digits_lt_base (by norm_num) hd
      interval_cases d <;> decide

theorem siblingName_ne_lock (base base' : String) (w i : Nat) :
    siblingName base w i ≠ base' ++ ".lock" ∨ base ≠ base' := by
  by_cases hb : base = base'
  · subst hb
    left
    intro h
    rw [string_eq_iff_data, siblingName_data, String.data_append] at h
    have h' := List.append_cancel_left h
    have hdata : (".lock" : String).data = ['.', 'l', 'o', 'c', 'k'] := rfl
    rw [hdata] at h'
    have h'' : padChars w i = ['l', 'o', 'c', 'k'] := by
      injection h'
    have : 'l' ∈ padChars w i := by rw [h'']; simp
    have := mem_padChars_digit this
    simp at this
  · right; exact hb

theorem siblingName_ne_lock_self (base : String) (w i : Nat) :
    siblingName base w i ≠ base ++ ".lock" :=
  (siblingName_ne_lock base base w i).resolve_right (fun h => h rfl)

theorem string_ne_append_lock (s : String) : s ≠ s ++ ".lock" := by
  intro h
  rw [string_eq_iff_data, String.data_append] at h
  have := congrArg List.length h
  simp at this

/-! ## `os.path` reconstruction lemmas

For a target path of the shape `d ++ "/" ++ b` (non-empty `d` not ending
in `'/'`, slash-free `b`), `join(dirname(p) or ".", basename(p))` gives
back `p`, so in the flat (no backup subdirectory) case of
`backup_existing_file` the backup base is the target path itself. -/

theorem takeWhile_append_all {p : Char → Bool} (xs : List Char) (y : Char)
    (ys : List Char) (hx : ∀ x ∈ xs, p x = true) (hy : p y = false) :
    (xs ++ y :: ys).takeWhile p = xs := by
  induction xs with
  | nil => simp [List.takeWhile_cons, hy]
  | cons a t ih =>
    have ha := hx a (by simp)
    simp only [List.cons_append, List.takeWhile_cons, ha, if_true]
    rw [ih (fun x hx' => hx x (by simp [hx']))]

theorem dropWhile_append_all {p : Char → Bool} (xs : List Char) (y : Char)
    (ys : List Char) (hx : ∀ x ∈ xs, p x = true) (hy : p y = false) :
    (xs ++ y :: ys).dropWhile p = y :: ys := by
  induction xs with
  | nil => simp [List.dropWhile_cons, hy]
  | cons a t ih =>
    have ha := hx a (by simp)
    simp only [List.cons_append, List.dropWhile_cons, ha, if_true]
    exact ih (fun x hx' => hx x (by simp [hx']))

theorem basenameChars_split (D B : List Char) (hB : ∀ c ∈ B, c ≠ '/') :
    basenameChars (D ++ '/' :: B) = B := by
  unfold basenameChars
  rw [List.reverse_append, List.reverse_cons, List.append_assoc,
    List.singleton_append]
  rw [takeWhile_append_all B.reverse '/' D.reverse
    (fun x hx => by simpa using hB x (List.mem_reverse.mp hx)) (by simp)]
  simp

theorem dirnameChars_split (D B : List Char) (hD : D ≠ [])
    (hDl : D.getLast? ≠ some '/') (hB : ∀ c ∈ B, c ≠ '/') :
    dirnameChars (D ++ '/' :: B) = D := by
  obtain ⟨a, t, ht⟩ : ∃ a t, D.reverse = a :: t := by
    cases h : D.reverse with
    | nil => exact absurd (by simpa using congrArg List.reverse h) hD
    | cons a t => exact ⟨a, t, rfl⟩
  have ha : a ≠ '/' := by
    intro h
    apply hDl
    rw [← List.head?_reverse, ht, h]
    rfl
  unfold dirnameChars
  rw [List.reverse_append, List.reverse_cons, List.append_assoc,
    List.singleton_append]
  rw [dropWhile_append_all B.reverse '/' D.reverse
    (fun x hx => by simpa using hB x (List.mem_reverse.mp hx)) (by simp)]
  simp only [List.reverse_cons]
  have hne : ¬(D.reverse.reverse ++ ['/'] = [] ∨
      (D.reverse.reverse ++ ['/']).all (fun c => c = '/')) := by
    push_neg
    constructor
    · simp
    · intro hall
      rw [List.all_eq_true] at hall
      have hmem : a ∈ D.reverse.reverse ++ ['/'] := by
        rw [List.reverse_reverse]
        refine List.mem_append.mpr (Or.inl ?_)
        rw [← List.mem_reverse, ht]
        simp
      have := hall a hmem
      simp only [decide_eq_true_eq] at this
      exact ha this
  rw [if_neg hne, List.reverse_append, List.reverse_reverse]
  simp only [List.reverse_cons, List.reverse_nil, List.nil_append,
    List.singleton_append, List.dropWhile_cons]
  rw [ht]
  simp only [List.dropWhile_cons]
  simp only [decide_eq_true_eq, if_true]
  rw [if_neg (by simpa using ha)]
  rw [← ht, List.reverse_reverse]

theorem pyBasename_split (d b : String) (hb : ∀ c ∈ b.data, c ≠ '/') :
    pyBasename (d ++ "/" ++ b) = b := by
  rw [string_eq_iff_data]
  show basenameChars (d ++ "/" ++ b).data = b.data
  rw [String.data_append, String.data_append]
  have : ("/" : String).data = ['/'] := rfl
  rw [this, List.append_assoc]
  exact basenameChars_split d.data b.data hb

theorem pyDirname_split (d b : String) (hd : d.data ≠ [])
    (hdl : d.data.getLast? ≠ some '/') (hb : ∀ c ∈ b.data, c ≠ '/') :
    pyDirname (d ++ "/" ++ b) = d := by
  rw [string_eq_iff_data]
  show dirnameChars (d ++ "/" ++ b).data = d.data
  rw [String.data_append, String.data_append]
  have : ("/" : String).data = ['/'] := rfl
  rw [this, List.append_assoc]
  exact dirnameChars_split d.data b.data hd hdl hb

theorem pyJoin_split (d b : String) (hd : d.data ≠ [])
    (hdl : d.data.getLast? ≠ some '/') (hb : ∀ c ∈ b.data, c ≠ '/') :
    pyJoin d b = d ++ "/" ++ b := by
  unfold pyJoin
  rw [if_neg, if_neg]
  · simp only [not_or]
    exact ⟨hd, hdl⟩
  · intro h
    cases hhead : b.data with
    | nil => rw [hhead] at h; simp at h
    | cons c cs =>
      rw [hhead] at h
      simp only [List.head?_cons, Option.some.injEq] at h
      exact hb c (by rw [hhead]; simp) h

/-! ## Rotation-loop invariant -/

/-- All keys of a sibling block differ from `p` when the indices do. -/
theorem block_keys_ne {base : String} {w : Nat} {g h : Nat → Nat} {m : Nat}
    {p : String} (hp : ∀ i, i < m → siblingName base w (g i) ≠ p) :
    ∀ e ∈ (List.range m).map (fun i => (siblingName base w (g i), h i)), e.1 ≠ p := by
  intro e he
  obtain ⟨i, hi, rfl⟩ := List.mem_map.mp he
  exact hp i (List.mem_range.mp hi)

theorem fsGet_block_ne {base : String} {w : Nat} {g h : Nat → Nat} {m : Nat}
    {p : String} (hp : ∀ i, i < m → siblingName base w (g i) ≠ p) :
    fsGet ((List.range m).map (fun i => (siblingName base w (g i), h i))) p = none :=
  fsGet_of_not_mem _ _ (block_keys_ne hp)

theorem fsRemove_block_ne {base : String} {w : Nat} {g h : Nat → Nat} {m : Nat}
    {p : String} (hp : ∀ i, i < m → siblingName base w (g i) ≠ p) :
    fsRemove ((List.range m).map (fun i => (siblingName base w (g i), h i))) p
      = (List.range m).map (fun i => (siblingName base w (g i), h i)) :=
  fsRemove_of_not_mem _ _ (block_keys_ne hp)

/-- Distinct indices give distinct sibling names. -/
theorem siblingName_ne_of_ne {base : String} {w i j : Nat} (h : i ≠ j) :
    siblingName base w i ≠ siblingName base w j :=
  fun he => h (siblingName_inj he)

/-- The rotation loop does nothing over indices whose sibling is absent. -/
theorem rotloop_nop (base : String) (w : Nat) (l : List Nat) (fs : Files)
    (h : ∀ idx ∈ l, fsExists fs (siblingName base w idx) = false) :
    l.foldl (rotateStep base w) fs = fs := by
  induction l with
  | nil => rfl
  | cons a t ih =>
    have ha := h a (by simp)
    simp only [List.foldl_cons, rotateStep, ha, Bool.false_eq_true, if_false]
    exact ih (fun idx hidx => h idx (by simp [hidx]))

theorem preFiles_succ_block1 (base : String) (w k j : Nat) (hjk : j < k) :
    (List.range (j + 1)).map
        (fun i => (siblingName base w (j + 1 - 1 - i), (k - (j + 1)) + i))
      = (siblingName base w j, k - j - 1)
        :: (List.range j).map (fun i => (siblingName base w (j - 1 - i), (k - j) + i)) := by
  rw [List.range_succ_eq_map, List.map_cons, List.map_map]
  congr 1
  apply List.map_congr_left
  intro i hi
  simp only [Function.comp_apply, Nat.succ_eq_add_one]
  have h1 : j + 1 - 1 - (i + 1) = j - 1 - i := by omega
  have h2 : k - (j + 1) + (i + 1) = (k - j) + i := by omega
  rw [h1, h2]

/-- Keys of the live-target and lock entries differ from every sibling
name. -/
theorem middle_keys_ne (base : String) (w k j' : Nat) :
    ∀ e ∈ ([(base, k), (base ++ ".lock", 0)] : Files),
      e.1 ≠ siblingName base w j' := by
  intro e he
  rcases List.mem_cons.mp he with rfl | he
  · exact fun hc => siblingName_ne_base base w j' hc.symm
  · rcases List.mem_cons.mp he with rfl | he
    · exact fun hc => siblingName_ne_lock_self base w j' hc.symm
    · simp at he

/-- One pass of the rotation loop moves the invariant state from `j + 1`
to `j`. -/
theorem rotateStep_pre (base : String) (w k j : Nat) (hjk : j < k) :
    rotateStep base w (preFiles base w k (j + 1)) j = preFiles base w k j := by
  have hb1 := preFiles_succ_block1 base w k j hjk
  have hpre : preFiles base w k (j + 1)
      = (siblingName base w j, k - j - 1)
        :: ((List.range j).map (fun i => (siblingName base w (j - 1 - i), (k - j) + i))
          ++ ([(base, k), (base ++ ".lock", 0)]
            ++ (List.range (k - (j + 1))).map (fun i => (siblingName base w (k - i), i)))) := by
    rw [preFiles, hb1]
    simp [List.cons_append, List.append_assoc]
  have hget : fsGet (preFiles base w k (j + 1)) (siblingName base w j)
      = some (k - j - 1) := by
    rw [hpre, fsGet_cons, if_pos rfl]
  have hrest_ne_j : ∀ e ∈ (List.range j).map
        (fun i => (siblingName base w (j - 1 - i), (k - j) + i))
      ++ ([(base, k), (base ++ ".lock", 0)]
        ++ (List.range (k - (j + 1))).map (fun i => (siblingName base w (k - i), i))),
      e.1 ≠ siblingName base w j := by
    intro e he
    rcases List.mem_append.mp he with h1 | h2
    · exact block_keys_ne (fun i hi => siblingName_ne_of_ne (by omega)) e h1
    · rcases List.mem_append.mp h2 with h3 | h4
      · exact middle_keys_ne base w k j e h3
      · exact block_keys_ne (fun i hi => siblingName_ne_of_ne (by omega)) e h4
  have hrest_ne_j1 : ∀ e ∈ (List.range j).map
        (fun i => (siblingName base w (j - 1 - i), (k - j) + i))
      ++ ([(base, k), (base ++ ".lock", 0)]
        ++ (List.range (k - (j + 1))).map (fun i => (siblingName base w (k - i), i))),
      e.1 ≠ siblingName base w (j + 1) := by
    intro e he
    rcases List.mem_append.mp he with h1 | h2
    · exact block_keys_ne (fun i hi => siblingName_ne_of_ne (by omega)) e h1
    · rcases List.mem_append.mp h2 with h3 | h4
      · exact middle_keys_ne base w k (j + 1) e h3
      · exact block_keys_ne (fun i hi => siblingName_ne_of_ne (by omega)) e h4
  rw [rotateStep]
  simp only [fsExists, hget, Option.isSome_some, if_true]
  rw [fsRename, hget]
  rw [hpre, fsRemove_cons, if_pos rfl, fsRemove_of_not_mem _ _ hrest_ne_j,
    fsRemove_of_not_mem _ _ hrest_ne_j1]
  rw [preFiles]
  have hb3 : (List.range (k - j)).map (fun i => (siblingName base w (k - i), i))
      = (List.range (k - (j + 1))).map (fun i => (siblingName base w (k - i), i))
        ++ [(siblingName base w (j + 1), k - j - 1)] := by
    have hkj : k - j = (k - (j + 1)) + 1 := by omega
    rw [hkj, List.range_succ, List.map_append]
    congr 1
    simp only [List.map_cons, List.map_nil]
    have h1 : k - (k - (j + 1)) = j + 1 := by omega
    rw [h1]
    rfl
  rw [hb3]
  simp [List.append_assoc]

/-- Running the rotation loop over indices `j - 1, ..., 0` from invariant
state `j` reaches invariant state `0`. -/
theorem rotloop_pre (base : String) (w k : Nat) :
    ∀ j, j ≤ k →
      (List.range j).reverse.foldl (rotateStep base w) (preFiles base w k j)
        = preFiles base w k 0 := by
  intro j
  induction j with
  | zero => intro _; simp
  | succ j ih =>
    intro hjk
    rw [List.range_succ, List.reverse_append]
    simp only [List.reverse_cons, List.reverse_nil, List.nil_append,
      List.singleton_append, List.foldl_cons]
    rw [rotateStep_pre base w k j (by omega)]
    exact ih (by omega)

/-- Lookup in a descending sibling block. -/
theorem fsGet_desc_block (base : String) (w : Nat) :
    ∀ (k off j : Nat),
      fsGet ((List.range k).map (fun i => (siblingName base w (k - 1 - i), off + i)))
          (siblingName base w j)
        = if j < k then some (off + (k - 1 - j)) else none := by
  intro k
  induction k with
  | zero => intro off j; simp [fsGet]
  | succ k ih =>
    intro off j
    rw [List.range_succ_eq_map, List.map_cons, List.map_map]
    have htail : (List.map ((fun i => (siblingName base w (k + 1 - 1 - i), off + i))
          ∘ Nat.succ) (List.range k))
        = (List.range k).map (fun i => (siblingName base w (k - 1 - i), (off + 1) + i)) := by
      apply List.map_congr_left
      intro i hi
      simp only [Function.comp_apply, Nat.succ_eq_add_one]
      have h1 : k + 1 - 1 - (i + 1) = k - 1 - i := by omega
      have h2 : off + (i + 1) = (off + 1) + i := by omega
      rw [h1, h2]
    rw [htail, fsGet_cons]
    simp only
    by_cases hj : j = k
    · rw [if_pos (show (siblingName base w (k + 1 - 1 - 0), off + 0).1
          = siblingName base w j by rw [hj]; rfl), if_pos (by omega)]
      congr 1
      omega
    · rw [if_neg (fun hc => hj (by have := siblingName_inj hc; omega))]
      rw [ih (off + 1) j]
      by_cases hjk : j < k
      · rw [if_pos hjk, if_pos (by omega)]
        congr 1
        omega
      · rw [if_neg hjk, if_neg (by omega)]

/-- Keys of `canonFiles` are sibling names with index below `k`. -/
theorem canonFiles_keys {base : String} {w k : Nat} :
    ∀ e ∈ canonFiles base w k, ∃ i, i < k ∧ e.1 = siblingName base w i := by
  intro e he
  obtain ⟨i, hi, rfl⟩ := List.mem_map.mp he
  exact ⟨k - 1 - i, by have := List.mem_range.mp hi; omega, rfl⟩

theorem canonFiles_keys_ne_target {base : String} {w k : Nat} :
    ∀ e ∈ canonFiles base w k, e.1 ≠ base := by
  intro e he
  obtain ⟨i, _, hk⟩ := canonFiles_keys e he
  rw [hk]
  exact siblingName_ne_base base w i

theorem canonFiles_keys_ne_lock {base : String} {w k : Nat} :
    ∀ e ∈ canonFiles base w k, e.1 ≠ base ++ ".lock" := by
  intro e he
  obtain ⟨i, _, hk⟩ := canonFiles_keys e he
  rw [hk]
  exact siblingName_ne_lock_self base w i

/-- The `(k+1)`-th call of the round-trip scenario: starting from the
canonical state of `k` completed rotations with the target re-created
(content tag `k`), `backup_existing_file` produces the canonical state of
`k + 1` rotations.  Requires `k ≤ maxBackups`: up to that point the
deletion guard of the rotation never fires. -/
theorem backup_call_canon (d b : String) (hd : d.data ≠ [])
    (hdl : d.data.getLast? ≠ some '/') (hb : ∀ c ∈ b.data, c ≠ '/')
    (dn : String) (N k : Nat) (hk : k ≤ N) (ds : List String) :
    backup_existing_file (d ++ "/" ++ b) false dn N
        { files := fsWrite (canonFiles (d ++ "/" ++ b) ((decString N).length) k)
            (d ++ "/" ++ b) k,
          dirs := ds }
      = { files := canonFiles (d ++ "/" ++ b) ((decString N).length) (k + 1),
          dirs := ds } := by
  set target := d ++ "/" ++ b with htarget
  set w := (decString N).length with hw
  have htarget_ne : target ≠ "" := by
    intro hc
    have hc' := congrArg String.data hc
    rw [htarget, String.data_append, String.data_append] at hc'
    simp at hc'
  have hwrite : fsWrite (canonFiles target w k) target k
      = canonFiles target w k ++ [(target, k)] := by
    rw [fsWrite, fsRemove_of_not_mem _ _ canonFiles_keys_ne_target]
  have hex : fsExists (fsWrite (canonFiles target w k) target k) target = true := by
    rw [hwrite, fsExists, fsGet_append,
      fsGet_of_not_mem _ _ canonFiles_keys_ne_target, Option.none_or, fsGet_cons,
      if_pos rfl]
    rfl
  rw [backup_existing_file]
  dsimp only
  rw [if_neg (by
    simp only [not_or]
    refine ⟨htarget_ne, ?_⟩
    rw [hex]
    simp)]
  have hdne : d ≠ "" := by
    intro hc
    exact hd (by rw [hc])
  simp only [pyDirname_split d b hd hdl hb, pyBasename_split d b hb, if_neg hdne,
    pyJoin_split d b hd hdl hb, Bool.false_eq_true, if_false]
  rw [← htarget, ← hw, hwrite]
  have hlock_absent : fsExists (canonFiles target w k ++ [(target, k)])
      (target ++ ".lock") = false := by
    rw [fsExists, fsGet_append, fsGet_of_not_mem _ _ canonFiles_keys_ne_lock,
      Option.none_or, fsGet_cons,
      if_neg (fun hc => string_ne_append_lock target hc), fsGet_nil]
    rfl
  rw [hlock_absent]
  simp only [Bool.false_eq_true, if_false]
  have hlock_write : fsWrite (canonFiles target w k ++ [(target, k)])
      (target ++ ".lock") 0
      = canonFiles target w k ++ [(target, k)] ++ [(target ++ ".lock", 0)] := by
    rw [fsWrite, fsRemove_append, fsRemove_of_not_mem _ _ canonFiles_keys_ne_lock]
    rw [fsRemove_cons, if_neg (fun hc => string_ne_append_lock target hc)]
    rfl
  rw [hlock_write]
  -- the state now coincides with the loop invariant at `j = k`
  have hpre_k : canonFiles target w k ++ [(target, k)] ++ [(target ++ ".lock", 0)]
      = preFiles target w k k := by
    rw [preFiles, canonFiles]
    have h0 : (List.range (k - k)).map (fun i => (siblingName target w (k - i), i))
        = [] := by
      rw [Nat.sub_self]
      rfl
    rw [h0]
    have h1 : (List.range k).map (fun i => (siblingName target w (k - 1 - i), (k - k) + i))
        = (List.range k).map (fun i => (siblingName target w (k - 1 - i), i)) := by
      apply List.map_congr_left
      intro i _
      rw [Nat.sub_self, Nat.zero_add]
    rw [h1]
    simp
  rw [hpre_k]
  -- rotation: the `.{max}` deletion guard does not fire, and the loop
  -- splits into a no-op part (indices `≥ k`) and the invariant part
  have hpre_get : ∀ j, fsGet (preFiles target w k k) (siblingName target w j)
      = if j < k then some (k - 1 - j) else none := by
    intro j
    rw [preFiles]
    have h0 : (List.range (k - k)).map (fun i => (siblingName target w (k - i), i))
        = [] := by
      rw [Nat.sub_self]; rfl
    rw [h0, fsGet_append, fsGet_nil, Option.or_none, fsGet_append]
    have hmid : fsGet [(target, k), (target ++ ".lock", 0)] (siblingName target w j)
        = none := by
      rw [fsGet_cons, fsGet_cons,
        if_neg (fun hc => siblingName_ne_base target w j hc.symm),
        if_neg (fun hc => siblingName_ne_lock_self target w j hc.symm)]
      rfl
    rw [hmid, Option.or_none]
    have hblk := fsGet_desc_block target w k (k - k) j
    rw [Nat.sub_self] at hblk
    have h1 : (List.range k).map (fun i => (siblingName target w (k - 1 - i), (k - k) + i))
        = (List.range k).map (fun i => (siblingName target w (k - 1 - i), 0 + i)) := by
      apply List.map_congr_left
      intro i _
      rw [Nat.sub_self]
    rw [h1, hblk]
    by_cases hj : j < k
    · rw [if_pos hj, if_pos hj]
      simp
    · rw [if_neg hj, if_neg hj]
  rw [rotate_backups]
  simp only [← hw]
  have hlast : fsExists (preFiles target w k k) (siblingName target w N) = false := by
    rw [fsExists, hpre_get N, if_neg (by omega)]
    rfl
  rw [hlast]
  simp only [Bool.false_eq_true, if_false]
  have hsplit : List.range N = List.range k ++ (List.range (N - k)).map (k + ·) := by
    conv_lhs => rw [show N = k + (N - k) by omega]
    rw [List.range_add]
  rw [hsplit, List.reverse_append, List.foldl_append]
  have hnop : ((List.range (N - k)).map (k + ·)).reverse.foldl
      (rotateStep target w) (preFiles target w k k) = preFiles target w k k := by
    apply rotloop_nop
    intro idx hidx
    rw [List.mem_reverse, List.mem_map] at hidx
    obtain ⟨m, _, rfl⟩ := hidx
    rw [fsExists, hpre_get (k + m), if_neg (by omega)]
    rfl
  rw [hnop, rotloop_pre target w k k le_rfl]
  -- final rename of the live target to index 0 and lock removal
  rw [preFiles]
  have h00 : (List.range 0).map (fun i => (siblingName target w (0 - 1 - i), (k - 0) + i))
      = [] := rfl
  rw [h00, List.nil_append]
  have hblk0_ne_target : ∀ e ∈ (List.range (k - 0)).map
      (fun i => (siblingName target w (k - i), i)), e.1 ≠ target := by
    intro e he
    obtain ⟨i, _, rfl⟩ := List.mem_map.mp he
    exact siblingName_ne_base target w (k - i)
  have hblk0_ne_lock : ∀ e ∈ (List.range (k - 0)).map
      (fun i => (siblingName target w (k - i), i)), e.1 ≠ target ++ ".lock" := by
    intro e he
    obtain ⟨i, _, rfl⟩ := List.mem_map.mp he
    exact siblingName_ne_lock_self target w (k - i)
  have hblk0_ne_sib0 : ∀ e ∈ (List.range (k - 0)).map
      (fun i => (siblingName target w (k - i), i)), e.1 ≠ siblingName target w 0 := by
    intro e he
    obtain ⟨i, hi, rfl⟩ := List.mem_map.mp he
    have := List.mem_range.mp hi
    exact siblingName_ne_of_ne (by omega)
  have hget_target : fsGet ([(target, k), (target ++ ".lock", 0)]
        ++ (List.range (k - 0)).map (fun i => (siblingName target w (k - i), i)))
      target = some k := by
    rw [fsGet_append, fsGet_cons, if_pos rfl]
    rfl
  rw [fsRename, hget_target]
  have hrm_target : fsRemove ([(target, k), (target ++ ".lock", 0)]
        ++ (List.range (k - 0)).map (fun i => (siblingName target w (k - i), i)))
      target
      = [(target ++ ".lock", 0)]
        ++ (List.range (k - 0)).map (fun i => (siblingName target w (k - i), i)) := by
    rw [fsRemove_append, fsRemove_cons, if_pos rfl, fsRemove_cons,
      if_neg (fun hc => string_ne_append_lock target hc.symm),
      fsRemove_of_not_mem _ _ (by simp), fsRemove_of_not_mem _ _ hblk0_ne_target]
  rw [hrm_target]
  have hrm_sib0 : fsRemove ([(target ++ ".lock", 0)]
        ++ (List.range (k - 0)).map (fun i => (siblingName target w (k - i), i)))
      (siblingName target w 0)
      = [(target ++ ".lock", 0)]
        ++ (List.range (k - 0)).map (fun i => (siblingName target w (k - i), i)) := by
    rw [fsRemove_append, fsRemove_cons,
      if_neg (fun hc => siblingName_ne_lock_self target w 0 hc.symm),
      fsRemove_of_not_mem _ _ (by simp), fsRemove_of_not_mem _ _ hblk0_ne_sib0]
  rw [hrm_sib0]
  have hrm_lock : fsRemove (([(target ++ ".lock", 0)]
        ++ (List.range (k - 0)).map (fun i => (siblingName target w (k - i), i)))
        ++ [(siblingName target w 0, k)])
      (target ++ ".lock")
      = (List.range (k - 0)).map (fun i => (siblingName target w (k - i), i))
        ++ [(siblingName target w 0, k)] := by
    rw [fsRemove_append, fsRemove_append, fsRemove_cons, if_pos rfl,
      fsRemove_of_not_mem _ _ (by simp), fsRemove_of_not_mem _ _ hblk0_ne_lock,
      fsRemove_cons,
      if_neg (fun hc => siblingName_ne_lock_self target w 0 hc),
      fsRemove_of_not_mem _ _ (by simp)]
    rfl
  rw [hrm_lock]
  -- the result is the canonical state for `k + 1`
  have hfin : (List.range (k - 0)).map (fun i => (siblingName target w (k - i), i))
        ++ [(siblingName target w 0, k)]
      = canonFiles target w (k + 1) := by
    have hA : (List.range (k - 0)).map (fun i => (siblingName target w (k - i), i))
        = (List.range k).map (fun i => (siblingName target w (k + 1 - 1 - i), i)) := by
      rw [Nat.sub_zero]
      apply List.map_congr_left
      intro i _
      have h1 : k + 1 - 1 - i = k - i := by omega
      rw [h1]
    have hB : ([(siblingName target w 0, k)] : Files)
        = [k].map (fun i => (siblingName target w (k + 1 - 1 - i), i)) := by
      simp only [List.map_cons, List.map_nil]
      have h1 : k + 1 - 1 - k = 0 := by omega
      rw [h1]
    rw [canonFiles, List.range_succ, List.map_append, hA, hB]
  rw [hfin]

/-- After `k ≤ maxBackups + 1` rotations of the round-trip scenario the
disk is exactly the canonical state: siblings `0 .. k-1`, newest content
at index `0`, no other files, no directories. -/
theorem runBackups_canon (d b : String) (hd : d.data ≠ [])
    (hdl : d.data.getLast? ≠ some '/') (hb : ∀ c ∈ b.data, c ≠ '/')
    (N : Nat) :
    ∀ k, k ≤ N + 1 →
      runBackups (d ++ "/" ++ b) N k
        = { files := canonFiles (d ++ "/" ++ b) ((decString N).length) k,
            dirs := [] } := by
  intro k
  induction k with
  | zero => intro _; rfl
  | succ k ih =>
    intro hk
    rw [runBackups, ih (by omega)]
    exact backup_call_canon d b hd hdl hb "backup" N k (by omega) []

/-- Lookup in the canonical state. -/
theorem fsGet_canonFiles (base : String) (w k j : Nat) :
    fsGet (canonFiles base w k) (siblingName base w j)
      = if j < k then some (k - 1 - j) else none := by
  have h := fsGet_desc_block base w k 0 j
  have h1 : (List.range k).map (fun i => (siblingName base w (k - 1 - i), 0 + i))
      = canonFiles base w k := by
    rw [canonFiles]
    apply List.map_congr_left
    intro i _
    rw [Nat.zero_add]
  rw [h1] at h
  rw [h]
  by_cases hj : j < k
  · rw [if_pos hj, if_pos hj, Nat.zero_add]
  · rw [if_neg hj, if_neg hj]

/-- A successful lookup exhibits an entry with the looked-up key. -/
theorem fsGet_isSome_key {l : Files} {p : String}
    (h : (fsGet l p).isSome = true) : ∃ e ∈ l, e.1 = p := by
  rw [fsGet] at h
  cases hf : l.find? (fun e => e.1 = p) with
  | none => rw [hf] at h; simp at h
  | some e =>
    refine ⟨e, List.mem_of_find?_eq_some hf, ?_⟩
    have := List.find?_some hf
    simpa using this

/-- C1 counterexample: with `maxBackups = 1`, rotating a re-created
target twice leaves TWO numbered siblings — `target.1`, the index equal
to `maxBackups`, exists on disk after the second rotation, contradicting
the claim that exactly `N` siblings remain and that a sibling at index
`N` never exists. -/
theorem c1_rotation_roundtrip_counterexample :
    (runBackups "/d/t" 1 2).files = [("/d/t.1", 0), ("/d/t.0", 1)]
    ∧ fsExists (runBackups "/d/t" 1 2).files "/d/t.1" = true :=
  ⟨by decide, by decide⟩

/-- C1 (amended): for every target path `d ++ "/" ++ b` and every
`maxBackups = N ≥ 1`, calling `backup_existing_file` `N + 1` times (the
target re-created with fresh content before each call) leaves exactly
`N + 1` numbered siblings `0 .. N`: the most recently displaced content
at index `0`, the original content (never deleted) at index `N`; the
live target is gone, nothing else exists, and a sibling at index `N + 1`
never exists after any of the rotations. -/
theorem c1_rotation_roundtrip (d b : String) (hd : d.data ≠ [])
    (hdl : d.data.getLast? ≠ some '/') (hb : ∀ c ∈ b.data, c ≠ '/')
    (N : Nat) (hN : 1 ≤ N) :
    (∀ i, fsGet (runBackups (d ++ "/" ++ b) N (N + 1)).files
        (siblingName (d ++ "/" ++ b) ((decString N).length) i)
      = if i ≤ N then some (N - i) else none)
    ∧ fsGet (runBackups (d ++ "/" ++ b) N (N + 1)).files (d ++ "/" ++ b) = none
    ∧ (∀ p, (fsGet (runBackups (d ++ "/" ++ b) N (N + 1)).files p).isSome = true →
        ∃ i, i ≤ N ∧ p = siblingName (d ++ "/" ++ b) ((decString N).length) i)
    ∧ (∀ k, k ≤ N + 1 →
        fsGet (runBackups (d ++ "/" ++ b) N k).files
          (siblingName (d ++ "/" ++ b) ((decString N).length) (N + 1)) = none) := by
  have hcanon := runBackups_canon d b hd hdl hb N
  refine ⟨?_, ?_, ?_, ?_⟩
  · intro i
    rw [hcanon (N + 1) le_rfl]
    rw [fsGet_canonFiles]
    by_cases hi : i ≤ N
    · rw [if_pos (by omega), if_pos hi, Nat.add_sub_cancel]
    · rw [if_neg (by omega), if_neg hi]
  · rw [hcanon (N + 1) le_rfl]
    exact fsGet_of_not_mem _ _ canonFiles_keys_ne_target
  · intro p hp
    rw [hcanon (N + 1) le_rfl] at hp
    obtain ⟨e, he, hkey⟩ := fsGet_isSome_key hp
    obtain ⟨i, hi, hk⟩ := canonFiles_keys e he
    exact ⟨i, by omega, by rw [← hkey, hk]⟩
  · intro k hk
    rw [hcanon k hk, fsGet_canonFiles, if_neg (by omega)]

/-- C1 witness: the amended theorem at `d = "/d"`, `b = "t"`,
`N = 1`. -/
theorem c1_rotation_roundtrip_witness :
    (("/d" : String).data ≠ [] ∧ ("/d" : String).data.getLast? ≠ some '/'
      ∧ (∀ c ∈ ("t" : String).data, c ≠ '/') ∧ 1 ≤ 1)
    ∧ ((∀ i, fsGet (runBackups ("/d" ++ "/" ++ "t") 1 (1 + 1)).files
          (siblingName ("/d" ++ "/" ++ "t") ((decString 1).length) i)
        = if i ≤ 1 then some (1 - i) else none)
      ∧ fsGet (runBackups ("/d" ++ "/" ++ "t") 1 (1 + 1)).files ("/d" ++ "/" ++ "t")
          = none
      ∧ (∀ p, (fsGet (runBackups ("/d" ++ "/" ++ "t") 1 (1 + 1)).files p).isSome
            = true →
          ∃ i, i ≤ 1 ∧ p = siblingName ("/d" ++ "/" ++ "t") ((decString 1).length) i)
      ∧ (∀ k, k ≤ 1 + 1 →
          fsGet (runBackups ("/d" ++ "/" ++ "t") 1 k).files
            (siblingName ("/d" ++ "/" ++ "t") ((decString 1).length) (1 + 1))
            = none)) :=
  ⟨⟨by decide, by decide, by decide, by decide⟩,
    c1_rotation_roundtrip "/d" "t" (by decide) (by decide) (by decide) 1 (by decide)⟩

/-- C9: `backup_existing_file` is a no-op whenever the target path is
empty or does not name an existing regular file: the whole disk state
(files, including any lock file or numbered sibling, and directories) is
returned unchanged, and re-running it changes nothing either. -/
theorem c9_backup_noop (targetPath : String) (useBackupDir : Bool)
    (backupDirName : String) (maxBackups : Nat) (disk : Disk)
    (h : targetPath = "" ∨ fsExists disk.files targetPath = false) :
    backup_existing_file targetPath useBackupDir backupDirName maxBackups disk = disk
    ∧ backup_existing_file targetPath useBackupDir backupDirName maxBackups
        (backup_existing_file targetPath useBackupDir backupDirName maxBackups disk)
      = disk := by
  have h1 : backup_existing_file targetPath useBackupDir backupDirName maxBackups disk
      = disk := by
    rw [backup_existing_file, if_pos h]
  exact ⟨h1, by rw [h1, h1]⟩

/-! ## Input resolution (`manifest.resolve_inputs`) -/

theorem validateOne_ok {w : World} {exts : List String} {x : String}
    (h : validInput w exts x) : validateOne w exts x = Except.ok () := by
  obtain ⟨h1, h2⟩ := h
  unfold validateOne validate_file_exists
  rw [if_pos h1]
  by_cases he : exts = []
  · rw [if_neg (fun hc => hc he)]
    rfl
  · rw [if_pos he]
    unfold validate_file_extension
    rw [if_neg he, if_pos (h2 he)]
    rfl

theorem validateOne_usage {w : World} {exts : List String} {x : String}
    (h : ¬ validInput w exts x) :
    ∃ m, validateOne w exts x = Except.error (SubmitErr.usage m) := by
  unfold validInput at h
  push_neg at h
  unfold validateOne validate_file_exists
  by_cases h1 : isfile w x = true
  · rw [if_pos h1]
    have h2 := h h1
    obtain ⟨hne, hany⟩ := h2
    rw [if_pos hne]
    unfold validate_file_extension
    rw [if_neg hne, if_neg (by simp [hany])]
    exact ⟨_, rfl⟩
  · rw [if_neg h1]
    exact ⟨_, rfl⟩

theorem list_forM_cons (f : String → Except SubmitErr Unit) (a : String)
    (t : List String) :
    List.forM (a :: t) f = (f a >>= fun _ => List.forM t f) := rfl

theorem forM_validate_ok {w : World} {exts : List String} :
    ∀ {l : List String}, (∀ x ∈ l, validInput w exts x) →
      List.forM l (validateOne w exts) = Except.ok () := by
  intro l
  induction l with
  | nil => intro _; rfl
  | cons a t ih =>
    intro h
    rw [list_forM_cons, validateOne_ok (h a (by simp))]
    have := ih (fun x hx => h x (by simp [hx]))
    simpa using this

theorem forM_validate_all {w : World} {exts : List String} :
    ∀ {l : List String}, List.forM l (validateOne w exts) = Except.ok () →
      ∀ x ∈ l, validInput w exts x := by
  intro l
  induction l with
  | nil => simp
  | cons a t ih =>
    intro h x hx
    rw [list_forM_cons] at h
    by_cases hv : validInput w exts a
    · rcases List.mem_cons.mp hx with rfl | hx'
      · exact hv
      · rw [validateOne_ok hv] at h
        exact ih h x hx'
    · obtain ⟨m, hm⟩ := validateOne_usage hv
      rw [hm] at h
      have h' : (Except.error (SubmitErr.usage m) : Except SubmitErr PUnit)
          = Except.ok () := h
      exact absurd h' (by simp)

theorem forM_validate_usage {w : World} {exts : List String} :
    ∀ {l : List String}, (∃ x ∈ l, ¬ validInput w exts x) →
      ∃ m, List.forM l (validateOne w exts) = Except.error (SubmitErr.usage m) := by
  intro l
  induction l with
  | nil => simp
  | cons a t ih =>
    intro h
    rw [list_forM_cons]
    by_cases hv : validInput w exts a
    · obtain ⟨x, hx, hnv⟩ := h
      rcases List.mem_cons.mp hx with rfl | hx'
      · exact absurd hv hnv
      · obtain ⟨m, hm⟩ := ih ⟨x, hx', hnv⟩
        refine ⟨m, ?_⟩
        rw [validateOne_ok hv]
        simpa using hm
    · obtain ⟨m, hm⟩ := validateOne_usage hv
      refine ⟨m, ?_⟩
      rw [hm]
      rfl

theorem resolve_inputs_of_raw_ok {w : World} {exts : List String} {mf : String}
    {pos ins : List String} {am : Bool}
    (hraw : resolveRawInputs w mf pos = Except.ok (ins, am))
    (hval : ∀ x ∈ ins, validInput w exts x) :
    resolve_inputs w mf pos exts = Except.ok (ins, am) := by
  unfold resolve_inputs
  rw [hraw]
  show (List.forM ins (validateOne w exts) >>= fun _ => pure (ins, am))
      = Except.ok (ins, am)
  rw [forM_validate_ok hval]
  rfl

theorem resolve_inputs_usage_of_invalid {w : World} {exts : List String}
    {mf : String} {pos ins : List String} {am : Bool}
    (hraw : resolveRawInputs w mf pos = Except.ok (ins, am))
    (hinv : ∃ x ∈ ins, ¬ validInput w exts x) :
    ∃ m, resolve_inputs w mf pos exts = Except.error (SubmitErr.usage m) := by
  obtain ⟨m, hm⟩ := forM_validate_usage hinv
  refine ⟨m, ?_⟩
  unfold resolve_inputs
  rw [hraw]
  show (List.forM ins (validateOne w exts) >>= fun _ => pure (ins, am))
      = Except.error (SubmitErr.usage m)
  rw [hm]
  rfl

theorem resolve_inputs_ok_inv {w : World} {exts : List String} {mf : String}
    {pos ins : List String} {am : Bool}
    (h : resolve_inputs w mf pos exts = Except.ok (ins, am)) :
    ∀ x ∈ ins, validInput w exts x := by
  unfold resolve_inputs at h
  cases hraw : resolveRawInputs w mf pos with
  | error e =>
    rw [hraw] at h
    have h' : (Except.error e : Except SubmitErr (List String × Bool))
        = Except.ok (ins, am) := h
    exact absurd h' (by simp)
  | ok p =>
    obtain ⟨ins', am'⟩ := p
    rw [hraw] at h
    have h2 : (List.forM ins' (validateOne w exts) >>= fun _ => pure (ins', am'))
        = Except.ok (ins, am) := h
    cases hf : List.forM ins' (validateOne w exts) with
    | error e =>
      rw [hf] at h2
      have h' : (Except.error e : Except SubmitErr (List String × Bool))
          = Except.ok (ins, am) := h2
      exact absurd h' (by simp)
    | ok u =>
      rw [hf] at h2
      have h' : (Except.ok (ins', am') : Except SubmitErr (List String × Bool))
          = Except.ok (ins, am) := h2
      have hp : ins' = ins ∧ am' = am := by
        injection h' with h3
        exact ⟨congrArg Prod.fst h3, congrArg Prod.snd h3⟩
      obtain ⟨rfl, rfl⟩ := hp
      exact forM_validate_all hf

/-- C3: default job resolution.  With a manifest file, one input per
non-empty manifest line (in order, no deduplication, each line stripped)
and `arrayMode = true` — with no minimum on the number of lines; with
more than one positional token, the tokens themselves and
`arrayMode = true`; with exactly one token, that single input and
`arrayMode = false`; with no tokens, the fatal usage error. -/
theorem c3_resolve_inputs_default (w : World) (mf : String) (pos exts : List String) :
    (mf ≠ "" → isfile w mf = true →
        (∀ x ∈ manifestInputs w mf, validInput w exts x) →
        resolve_inputs w mf pos exts = Except.ok (manifestInputs w mf, true))
    ∧ (1 < pos.length → (∀ x ∈ pos, validInput w exts x) →
        resolve_inputs w "" pos exts = Except.ok (pos, true))
    ∧ (∀ x, validInput w exts x →
        resolve_inputs w "" [x] exts = Except.ok ([x], false))
    ∧ resolve_inputs w "" [] exts
        = Except.error (SubmitErr.usage "No input files specified") := by
  refine ⟨?_, ?_, ?_, ?_⟩
  · intro hmf hfile hval
    apply resolve_inputs_of_raw_ok _ hval
    rw [resolveRawInputs, if_pos hmf]
    unfold validate_file_exists
    rw [if_pos hfile]
    rfl
  · intro hlen hval
    apply resolve_inputs_of_raw_ok _ hval
    rw [resolveRawInputs, if_neg (fun hc => hc rfl), if_pos hlen]
    rfl
  · intro x hval
    apply resolve_inputs_of_raw_ok _ (by intro y hy; rw [List.mem_singleton.mp hy]; exact hval)
    rw [resolveRawInputs, if_neg (fun hc => hc rfl), if_neg (by simp),
      if_pos (by simp)]
    rfl
  · have hraw : resolveRawInputs w "" []
        = Except.error (SubmitErr.usage "No input files specified") := by
      rw [resolveRawInputs, if_neg (fun hc => hc rfl), if_neg (by simp),
        if_neg (by simp)]
    unfold resolve_inputs
    rw [hraw]
    rfl

/-- C3 witness: a three-line manifest (one line blank) resolves to its
two stripped non-empty lines in order with `arrayMode = true`; a lone
positional token resolves in single mode; no tokens is the usage
error. -/
theorem c3_resolve_inputs_default_witness :
    (("m" : String) ≠ ""
      ∧ isfile ⟨[("m", ["a\n", " \n", "b\n"]), ("a", []), ("b", [])], fun s => s⟩ "m"
          = true
      ∧ (∀ x ∈ manifestInputs
            ⟨[("m", ["a\n", " \n", "b\n"]), ("a", []), ("b", [])], fun s => s⟩ "m",
          validInput ⟨[("m", ["a\n", " \n", "b\n"]), ("a", []), ("b", [])], fun s => s⟩
            [] x))
    ∧ resolve_inputs ⟨[("m", ["a\n", " \n", "b\n"]), ("a", []), ("b", [])], fun s => s⟩
        "m" [] []
      = Except.ok (manifestInputs
          ⟨[("m", ["a\n", " \n", "b\n"]), ("a", []), ("b", [])], fun s => s⟩ "m", true)
    ∧ manifestInputs
          ⟨[("m", ["a\n", " \n", "b\n"]), ("a", []), ("b", [])], fun s => s⟩ "m"
        = ["a", "b"]
    ∧ resolve_inputs ⟨[("m", ["a\n", " \n", "b\n"]), ("a", []), ("b", [])], fun s => s⟩
        "" [] []
      = Except.error (SubmitErr.usage "No input files specified") :=
  ⟨⟨by decide, by decide, by decide⟩,
    (c3_resolve_inputs_default
        ⟨[("m", ["a\n", " \n", "b\n"]), ("a", []), ("b", [])], fun s => s⟩ "m" [] []).1
      (by decide) (by decide) (by decide),
    by decide,
    (c3_resolve_inputs_default
        ⟨[("m", ["a\n", " \n", "b\n"]), ("a", []), ("b", [])], fun s => s⟩ "" [] []).2.2.2⟩

/-- C4: `resolve_inputs` never returns a partially validated list: a
successful result contains only inputs that exist as regular files and
(when the workload declares accepted suffixes) end with one of them, and
whenever the raw resolution contains any invalid path the whole call
fails with a usage error instead of returning a list. -/
theorem c4_resolve_inputs_all_or_nothing (w : World) (mf : String) (pos exts : List String) :
    (∀ ins am, resolve_inputs w mf pos exts = Except.ok (ins, am) →
        ∀ x ∈ ins, validInput w exts x)
    ∧ (∀ ins am, resolveRawInputs w mf pos = Except.ok (ins, am) →
        (∃ x ∈ ins, ¬ validInput w exts x) →
        ∃ m, resolve_inputs w mf pos exts = Except.error (SubmitErr.usage m)) :=
  ⟨fun _ _ h => resolve_inputs_ok_inv h,
    fun _ _ hraw hinv => resolve_inputs_usage_of_invalid hraw hinv⟩

/-- C4 witness: a token list with one existing and one missing file is
raw-resolved but `resolve_inputs` fails with a usage error. -/
theorem c4_resolve_inputs_all_or_nothing_witness :
    resolveRawInputs ⟨[("a", [])], fun s => s⟩ "" ["a", "missing"]
        = Except.ok (["a", "missing"], true)
    ∧ (∃ x ∈ (["a", "missing"] : List String),
        ¬ validInput ⟨[("a", [])], fun s => s⟩ [] x)
    ∧ ∃ m, resolve_inputs ⟨[("a", [])], fun s => s⟩ "" ["a", "missing"] []
        = Except.error (SubmitErr.usage m) :=
  ⟨by decide, by decide,
    (c4_resolve_inputs_all_or_nothing ⟨[("a", [])], fun s => s⟩ "" ["a", "missing"] []).2
      ["a", "missing"] true (by decide) (by decide)⟩

/-! ## Dalton token parsing (`modules/dalton.py`) -/

theorem except_bind_ok {e a b : Type} (x : a) (f : a → Except e b) :
    (Except.ok x >>= f) = f x := rfl

theorem except_pure_bind {e a b : Type} (x : a) (f : a → Except e b) :
    ((pure x : Except e a) >>= f) = f x := rfl

theorem splitTabChars_cons (c : Char) (rest : List Char) :
    splitTabChars (c :: rest)
      = if c = '\t' then [] :: splitTabChars rest
        else match splitTabChars rest with
          | [] => [[c]]
          | h :: t => (c :: h) :: t := rfl

theorem splitTabChars_no_tab : ∀ {cs : List Char}, '\t' ∉ cs →
    splitTabChars cs = [cs] := by
  intro cs
  induction cs with
  | nil => intro _; rfl
  | cons c rest ih =>
    intro h
    rw [splitTabChars_cons,
      if_neg (fun hc => h (by rw [hc]; exact List.mem_cons_self _ _))]
    rw [ih (fun hm => h (List.mem_cons_of_mem c hm))]

theorem splitTabChars_split {xs : List Char} (ys : List Char) (h : '\t' ∉ xs) :
    splitTabChars (xs ++ '\t' :: ys) = xs :: splitTabChars ys := by
  induction xs with
  | nil => simp [splitTabChars_cons]
  | cons c rest ih =>
    rw [List.cons_append, splitTabChars_cons,
      if_neg (fun hc => h (by rw [hc]; exact List.mem_cons_self _ _))]
    rw [ih (fun hm => h (List.mem_cons_of_mem c hm))]

theorem string_mk_data (s : String) : (⟨s.data⟩ : String) = s := String.ext rfl

theorem splitTab_mkJobLine (A B C D : String) (hA : '\t' ∉ A.data)
    (hB : '\t' ∉ B.data) (hC : '\t' ∉ C.data) (hD : '\t' ∉ D.data) :
    splitTab (mkJobLine A B C D) = [A, B, C, D] := by
  unfold splitTab mkJobLine
  have ht : ("\t" : String).data = ['\t'] := rfl
  have hdata : (A ++ "\t" ++ B ++ "\t" ++ C ++ "\t" ++ D).data
      = A.data ++ '\t' :: (B.data ++ '\t' :: (C.data ++ '\t' :: D.data)) := by
    simp [String.data_append, ht]
  rw [hdata, splitTabChars_split _ hA, splitTabChars_split _ hB,
    splitTabChars_split _ hC, splitTabChars_no_tab hD]
  simp [string_mk_data]

theorem applyPot_empty (P A B : String) (hA : '\t' ∉ A.data) (hB : '\t' ∉ B.data) :
    applyPotToLine P (mkJobLine A B "" "") = mkJobLine A B P "" := by
  unfold applyPotToLine
  rw [splitTab_mkJobLine A B "" "" hA hB (by decide) (by decide)]
  rw [if_pos ⟨by simp, rfl⟩]
  show joinTab ([A, B, "", ""].set 2 P) = mkJobLine A B P ""
  have hset : [A, B, "", ""].set 2 P = [A, B, P, ""] := rfl
  rw [hset]
  apply String.ext
  have he : ("" : String).data = [] := rfl
  simp [joinTab, mkJobLine, String.data_append, he]

theorem retroactive_two (j1 j2 P : String) :
    retroactive_pot [j1, j2] P 0 = [applyPotToLine P j1, applyPotToLine P j2] := by
  simp [retroactive_pot]

/-- C2: for the token list `[primary.dal, a.mol, b.mol, p.pot]` with all
four files existing, `DaltonModule.build_jobs` assembles exactly two job
records (the primary paired with each `.mol`), and — although the `.pot`
token came after both `.mol` tokens — both records carry `p.pot` as
their modifier (sticky retroactive application over the open segment);
the pair resolves to array mode. -/
theorem c2_sticky_pot_retroactive (w : World)
    (h1 : isfile w "primary.dal" = true) (h2 : isfile w "a.mol" = true)
    (h3 : isfile w "b.mol" = true) (h4 : isfile w "p.pot" = true)
    (hA0 : w.realp "primary.dal" ≠ "")
    (hA : '\t' ∉ (w.realp "primary.dal").data)
    (hMA : '\t' ∉ (w.realp "a.mol").data)
    (hMB : '\t' ∉ (w.realp "b.mol").data) :
    build_jobs w "" ["primary.dal", "a.mol", "b.mol", "p.pot"]
      = Except.ok
          ([mkJobLine (w.realp "primary.dal") (w.realp "a.mol") (w.realp "p.pot") "",
            mkJobLine (w.realp "primary.dal") (w.realp "b.mol") (w.realp "p.pot") ""],
            true) := by
  have hv1 : validate_file_exists w "primary.dal" = Except.ok () := by
    rw [validate_file_exists, if_pos h1]
  have hv2 : validate_file_exists w "a.mol" = Except.ok () := by
    rw [validate_file_exists, if_pos h2]
  have hv3 : validate_file_exists w "b.mol" = Except.ok () := by
    rw [validate_file_exists, if_pos h3]
  have hv4 : validate_file_exists w "p.pot" = Except.ok () := by
    rw [validate_file_exists, if_pos h4]
  have s1 : processToken w (initDaltonSt []) "primary.dal"
      = Except.ok
          { jobs := [], current_dal := w.realp "primary.dal",
            current_dal_has_mol := false, sticky_pot := "", seg_start := 0,
            next_restart := "", pending_global_restart := "",
            pending_pot_before_dal := "" } := by
    rw [processToken, if_pos (by decide)]
    unfold handle_dal_token
    rw [hv1]
    rfl
  have s2 : processToken w
      { jobs := [], current_dal := w.realp "primary.dal",
        current_dal_has_mol := false, sticky_pot := "", seg_start := 0,
        next_restart := "", pending_global_restart := "",
        pending_pot_before_dal := "" } "a.mol"
      = Except.ok
          { jobs := [mkJobLine (w.realp "primary.dal") (w.realp "a.mol") "" ""],
            current_dal := w.realp "primary.dal", current_dal_has_mol := true,
            sticky_pot := "", seg_start := 0, next_restart := "",
            pending_global_restart := "", pending_pot_before_dal := "" } := by
    rw [processToken, if_neg (by decide), if_neg (by decide), if_neg (by decide),
      if_pos (by decide)]
    rw [hv2]
    dsimp only
    rw [if_neg hA0]
    rw [if_neg (fun hc : ("" : String) ≠ "" => hc rfl)]
    rw [if_neg (fun hc : ("" : String) ≠ "" => hc rfl)]
    rfl
  have s3 : processToken w
      { jobs := [mkJobLine (w.realp "primary.dal") (w.realp "a.mol") "" ""],
        current_dal := w.realp "primary.dal", current_dal_has_mol := true,
        sticky_pot := "", seg_start := 0, next_restart := "",
        pending_global_restart := "", pending_pot_before_dal := "" } "b.mol"
      = Except.ok
          { jobs := [mkJobLine (w.realp "primary.dal") (w.realp "a.mol") "" "",
              mkJobLine (w.realp "primary.dal") (w.realp "b.mol") "" ""],
            current_dal := w.realp "primary.dal", current_dal_has_mol := true,
            sticky_pot := "", seg_start := 0, next_restart := "",
            pending_global_restart := "", pending_pot_before_dal := "" } := by
    rw [processToken, if_neg (by decide), if_neg (by decide), if_neg (by decide),
      if_pos (by decide)]
    rw [hv3]
    dsimp only
    rw [if_neg hA0]
    rw [if_neg (fun hc : ("" : String) ≠ "" => hc rfl)]
    rw [if_neg (fun hc : ("" : String) ≠ "" => hc rfl)]
    rfl
  have s4 : processToken w
      { jobs := [mkJobLine (w.realp "primary.dal") (w.realp "a.mol") "" "",
          mkJobLine (w.realp "primary.dal") (w.realp "b.mol") "" ""],
        current_dal := w.realp "primary.dal", current_dal_has_mol := true,
        sticky_pot := "", seg_start := 0, next_restart := "",
        pending_global_restart := "", pending_pot_before_dal := "" } "p.pot"
      = Except.ok
          { jobs := [mkJobLine (w.realp "primary.dal") (w.realp "a.mol")
              (w.realp "p.pot") "",
              mkJobLine (w.realp "primary.dal") (w.realp "b.mol")
                (w.realp "p.pot") ""],
            current_dal := w.realp "primary.dal", current_dal_has_mol := true,
            sticky_pot := w.realp "p.pot", seg_start := 0, next_restart := "",
            pending_global_restart := "", pending_pot_before_dal := "" } := by
    rw [processToken, if_neg (by decide), if_pos (by decide)]
    unfold handle_pot_token
    rw [hv4]
    dsimp only
    rw [if_neg hA0]
    rw [retroactive_two, applyPot_empty _ _ _ hA hMA, applyPot_empty _ _ _ hA hMB]
    rfl
  have hfold : ["primary.dal", "a.mol", "b.mol", "p.pot"].foldlM (processToken w)
      (initDaltonSt [])
      = Except.ok
          { jobs := [mkJobLine (w.realp "primary.dal") (w.realp "a.mol")
              (w.realp "p.pot") "",
              mkJobLine (w.realp "primary.dal") (w.realp "b.mol")
                (w.realp "p.pot") ""],
            current_dal := w.realp "primary.dal", current_dal_has_mol := true,
            sticky_pot := w.realp "p.pot", seg_start := 0, next_restart := "",
            pending_global_restart := "", pending_pot_before_dal := "" } := by
    rw [List.foldlM_cons, s1, except_bind_ok, List.foldlM_cons, s2, except_bind_ok,
      List.foldlM_cons, s3, except_bind_ok, List.foldlM_cons, s4, except_bind_ok]
    rfl
  unfold build_jobs assembleJobs
  rw [if_neg (fun hc : ("" : String) ≠ "" => hc rfl)]
  rw [build_from_tokens, if_neg (by decide), hfold, except_bind_ok]
  rw [if_neg (fun hc => by simpa using hc.2)]
  rw [except_pure_bind]
  rw [if_neg (by simp)]
  rfl

/-- C2 witness: the theorem at a concrete world holding the four files,
with `realpath` prefixing `/w/`. -/
theorem c2_sticky_pot_retroactive_witness :
    (isfile ⟨[("primary.dal", ["x"]), ("a.mol", []), ("b.mol", []), ("p.pot", [])],
        fun s => "/w/" ++ s⟩ "primary.dal" = true
      ∧ ("/w/" ++ "primary.dal" : String) ≠ ""
      ∧ '\t' ∉ ("/w/" ++ "primary.dal" : String).data)
    ∧ build_jobs ⟨[("primary.dal", ["x"]), ("a.mol", []), ("b.mol", []), ("p.pot", [])],
        fun s => "/w/" ++ s⟩ "" ["primary.dal", "a.mol", "b.mol", "p.pot"]
      = Except.ok
          ([mkJobLine ("/w/" ++ "primary.dal") ("/w/" ++ "a.mol") ("/w/" ++ "p.pot") "",
            mkJobLine ("/w/" ++ "primary.dal") ("/w/" ++ "b.mol") ("/w/" ++ "p.pot") ""],
            true) :=
  ⟨⟨by decide, by decide, by decide⟩,
    c2_sticky_pot_retroactive
      ⟨[("primary.dal", ["x"]), ("a.mol", []), ("b.mol", []), ("p.pot", [])],
        fun s => "/w/" ++ s⟩
      (by decide) (by decide) (by decide) (by decide) (by decide) (by decide)
      (by decide) (by decide)⟩

/-- C5 counterexample: with no manifest and an empty token list,
`build_jobs` fails the source's `assert len(tokens) > 0` (an
AssertionError that escapes `cli.main`), not the "No jobs assembled"
usage error the claim promises for zero assembled records. -/
theorem c5_build_jobs_modes_counterexample :
    build_jobs ⟨[], fun s => s⟩ "" []
        = Except.error (SubmitErr.assertion "tokens must not be empty")
    ∧ ∀ m, build_jobs ⟨[], fun s => s⟩ "" [] ≠ Except.error (SubmitErr.usage m) := by
  have h0 : build_jobs ⟨[], fun s => s⟩ "" []
      = Except.error (SubmitErr.assertion "tokens must not be empty") := by decide
  refine ⟨h0, ?_⟩
  intro m hm
  rw [h0] at hm
  simp at hm

/-- C5 (amended): for `DaltonModule.build_jobs` over any token list or
manifest, zero assembled job records raise the fatal usage error "No
jobs assembled (check inputs)" — except an empty positional token list
without a manifest, which fails the parser's internal assertion instead;
exactly one assembled record gives `arrayMode = false` and more than one
gives `arrayMode = true`. -/
theorem c5_build_jobs_modes (w : World) (mf : String) (pos : List String) :
    (mf = "" → pos = [] →
      build_jobs w mf pos
        = Except.error (SubmitErr.assertion "tokens must not be empty"))
    ∧ (∀ jobs, assembleJobs w mf pos = Except.ok jobs → jobs = [] →
        build_jobs w mf pos
          = Except.error (SubmitErr.usage "No jobs assembled (check inputs)"))
    ∧ (∀ jobs, assembleJobs w mf pos = Except.ok jobs → jobs.length = 1 →
        build_jobs w mf pos = Except.ok (jobs, false))
    ∧ (∀ jobs, assembleJobs w mf pos = Except.ok jobs → 1 < jobs.length →
        build_jobs w mf pos = Except.ok (jobs, true)) := by
  refine ⟨?_, ?_, ?_, ?_⟩
  · intro hmf hpos
    subst hmf
    subst hpos
    rfl
  · intro jobs hassm hnil
    subst hnil
    unfold build_jobs
    rw [hassm, except_bind_ok, if_pos (by decide)]
  · intro jobs hassm hlen
    unfold build_jobs
    rw [hassm, except_bind_ok, if_neg (by omega)]
    have hd : decide (1 < jobs.length) = false := by
      rw [hlen]
      rfl
    rw [hd]
    rfl
  · intro jobs hassm hlen
    unfold build_jobs
    rw [hassm, except_bind_ok, if_neg (by omega)]
    rw [decide_eq_true hlen]
    rfl

/-- C5 witness: a comment-only manifest assembles zero records and hits
the usage error; a two-record manifest resolves to array mode. -/
theorem c5_build_jobs_modes_witness :
    assembleJobs ⟨[("m", ["# c"])], fun s => s⟩ "m" [] = Except.ok []
    ∧ build_jobs ⟨[("m", ["# c"])], fun s => s⟩ "m" []
        = Except.error (SubmitErr.usage "No jobs assembled (check inputs)") :=
  ⟨by decide,
    (c5_build_jobs_modes ⟨[("m", ["# c"])], fun s => s⟩ "m" []).2.1 [] (by decide) rfl⟩

/-- C7 counterexample: the manifest line `"a.dal b.mol"` contains no tab
at all, yet `_read_manifest` consumes it as a pre-split record (the
source splits on any whitespace via `line.split()`), contradicting the
claim that a non-tab-separated line is never consumed as a pre-split
record and falls back to token parsing (which would have rejected the
single token `"a.dal b.mol"`). -/
theorem c7_manifest_line_handling_counterexample :
    read_manifest ⟨[("a.dal", ["x"]), ("b.mol", ["y"]), ("m", ["a.dal b.mol"])],
        fun s => s⟩ "m"
      = Except.ok ["a.dal\tb.mol\t\t"]
    ∧ '\t' ∉ ("a.dal b.mol" : String).data :=
  ⟨by decide, by decide⟩

/-- C7 (amended): `_read_manifest` skips blank lines and lines whose
first non-whitespace character is `#`; a line with at least two
whitespace-separated fields (tab or space alike) is consumed directly as
a pre-split record after validation (or rejected with an error), and
every line with fewer than two whitespace-separated fields is collected
for the token-parsing fallback. -/
theorem c7_manifest_line_handling (w : World) (jobs toks : List String)
    (rawLine : String) :
    (pyStrip (rstripCRLF rawLine) = ""
        ∨ strStartsWith (pyStrip (rstripCRLF rawLine)) "#" = true →
      manifest_line_step w (jobs, toks) rawLine = Except.ok (jobs, toks))
    ∧ (¬ (pyStrip (rstripCRLF rawLine) = ""
        ∨ strStartsWith (pyStrip (rstripCRLF rawLine)) "#" = true) →
      (pyWsSplit (rstripCRLF rawLine)).length < 2 →
      manifest_line_step w (jobs, toks) rawLine
        = Except.ok (jobs, toks ++ [rstripCRLF rawLine]))
    ∧ (¬ (pyStrip (rstripCRLF rawLine) = ""
        ∨ strStartsWith (pyStrip (rstripCRLF rawLine)) "#" = true) →
      2 ≤ (pyWsSplit (rstripCRLF rawLine)).length →
      (∃ e, manifest_line_step w (jobs, toks) rawLine = Except.error e)
        ∨ (∃ rec, manifest_line_step w (jobs, toks) rawLine
            = Except.ok (jobs ++ [rec], toks))) := by
  refine ⟨?_, ?_, ?_⟩
  · intro h
    unfold manifest_line_step
    rw [if_pos h]
    rfl
  · intro h hlen
    unfold manifest_line_step
    rw [if_neg h, if_neg (by omega)]
    rfl
  · intro h hlen
    unfold manifest_line_step
    rw [if_neg h, if_pos hlen]
    dsimp only
    set dal := (pyWsSplit (rstripCRLF rawLine)).getD 0 "" with hdal
    set mol := (pyWsSplit (rstripCRLF rawLine)).getD 1 "" with hmol
    set pot := (if 2 < (pyWsSplit (rstripCRLF rawLine)).length
      then (pyWsSplit (rstripCRLF rawLine)).getD 2 "" else "") with hpot
    set rst := (if 3 < (pyWsSplit (rstripCRLF rawLine)).length
      then (pyWsSplit (rstripCRLF rawLine)).getD 3 "" else "") with hrst
    by_cases c1 : ¬ (strEndsWith dal ".dal" = true ∧ isfile w dal = true)
    · rw [if_pos c1]
      exact Or.inl ⟨_, rfl⟩
    · rw [if_neg c1]
      by_cases c2 : ¬ (strEndsWith mol ".mol" = true ∧ isfile w mol = true)
      · rw [if_pos c2]
        exact Or.inl ⟨_, rfl⟩
      · rw [if_neg c2]
        by_cases c3 : pot ≠ "" ∧ ¬ (strEndsWith pot ".pot" = true ∧ isfile w pot = true)
        · rw [if_pos c3]
          exact Or.inl ⟨_, rfl⟩
        · rw [if_neg c3]
          by_cases c4 : rst ≠ ""
              ∧ ¬ (strEndsWith rst ".tar.gz" = true ∧ isfile w rst = true)
          · rw [if_pos c4]
            exact Or.inl ⟨_, rfl⟩
          · rw [if_neg c4]
            exact Or.inr ⟨_, rfl⟩

/-- C7 witness: a single-field line goes to the token fallback; the
space-separated two-field line of the counterexample world is consumed
as a record. -/
theorem c7_manifest_line_handling_witness :
    (¬ (pyStrip (rstripCRLF "token") = ""
        ∨ strStartsWith (pyStrip (rstripCRLF "token")) "#" = true))
    ∧ (pyWsSplit (rstripCRLF "token")).length < 2
    ∧ manifest_line_step ⟨[], fun s => s⟩ ([], []) "token"
        = Except.ok ([], [rstripCRLF "token"]) :=
  ⟨by decide, by decide,
    (c7_manifest_line_handling ⟨[], fun s => s⟩ [] [] "token").2.1
      (by decide) (by decide)⟩

/-- C10: when a custom job name is set, the default `create_manifest`
writes to the path that is exactly the custom job name (the leading dot
and the `.manifest` suffix are only added when no custom name is set),
and `cli._determine_job_name_and_manifest` in array mode — without a
module manifest creator and without a user manifest file — uses exactly
that path as the execution manifest. -/
theorem c10_custom_job_name_manifest_path (w : World) (metaName customJobName : String)
    (arrayMode : Bool) (manifestFile : String) (throttle : Nat)
    (inputs : List String) (hasCustomDJN : Bool) (mDJN : String)
    (mJN : String → String) (hasCustomCEM : Bool) (mCEM : String → String)
    (jobName : String) :
    (customJobName ≠ "" →
      (create_manifest w inputs jobName customJobName).1 = customJobName)
    ∧ (customJobName = "" →
      (create_manifest w inputs jobName customJobName).1
        = "." ++ jobName ++ ".manifest")
    ∧ (customJobName ≠ "" → arrayMode = true → hasCustomCEM = false →
        manifestFile = "" →
        (determine_job_name_and_manifest w metaName customJobName arrayMode
            manifestFile throttle inputs hasCustomDJN mDJN mJN hasCustomCEM mCEM).2
          = customJobName) := by
  refine ⟨?_, ?_, ?_⟩
  · intro hc
    rw [create_manifest]
    simp only [if_pos hc]
  · intro hc
    rw [create_manifest]
    simp only [hc]
    rw [if_neg (fun h => h rfl)]
  · intro hc harr hcem hmf
    rw [determine_job_name_and_manifest]
    simp only [harr, hcem, hmf, if_pos hc, if_true, Bool.false_eq_true, if_false,
      if_neg (fun h : ("" : String) ≠ "" => h rfl)]
    rw [create_manifest]
    simp only [if_pos hc]

/-- C10 witness: with custom job name `"run7"` in array mode the
manifest path is exactly `"run7"`; without a custom name it is
`".j.manifest"`. -/
theorem c10_custom_job_name_manifest_path_witness :
    (("run7" : String) ≠ "" ∧ true = true ∧ false = false ∧ ("" : String) = "")
    ∧ (determine_job_name_and_manifest ⟨[], fun s => s⟩ "mod" "run7" true "" 5
        ["a"] false "x" (fun s => s) false (fun s => s)).2 = "run7"
    ∧ (create_manifest ⟨[], fun s => s⟩ ["a"] "j" "").1 = ".j.manifest" :=
  ⟨⟨by decide, rfl, rfl, rfl⟩,
    (c10_custom_job_name_manifest_path ⟨[], fun s => s⟩ "mod" "run7" true "" 5
        ["a"] false "x" (fun s => s) false (fun s => s) "j").2.2
      (by decide) rfl rfl rfl,
    (c10_custom_job_name_manifest_path ⟨[], fun s => s⟩ "mod" "" true "" 5
        ["a"] false "x" (fun s => s) false (fun s => s) "j").2.1 rfl⟩

/-! Helpers for the header-emitter claim: a chunk whose first eleven
characters already differ from `"#SBATCH --array="` cannot have it as a
prefix. -/

theorem isPrefixOf_cons_cons (a b : Char) (xs ys : List Char) :
    List.isPrefixOf (a :: xs) (b :: ys) = (a == b && List.isPrefixOf xs ys) := rfl

theorem arr_not_prefix_data {l : List Char} (c : Char) (tail : List Char)
    (hl : l = '#' :: 'S' :: 'B' :: 'A' :: 'T' :: 'C' :: 'H' :: ' ' :: '-' :: '-'
        :: c :: tail)
    (hc : c ≠ 'a') :
    List.isPrefixOf ("#SBATCH --array=" : String).data l = false := by
  subst hl
  have harr : ("#SBATCH --array=" : String).data
      = '#' :: 'S' :: 'B' :: 'A' :: 'T' :: 'C' :: 'H' :: ' ' :: '-' :: '-' :: 'a'
          :: "rray=".data := rfl
  rw [harr]
  simp only [isPrefixOf_cons_cons]
  have hac : ('a' == c) = false := by
    rw [beq_eq_false_iff_ne]
    exact fun h => hc h.symm
  simp [hac]

theorem mem_ite_nil_iff {p : Prop} [Decidable p] (c x : String) :
    (c ∈ if p then [x] else ([] : List String)) ↔ (p ∧ c = x) := by
  by_cases hp : p
  · rw [if_pos hp]
    simp [hp]
  · rw [if_neg hp]
    simp [hp]

/-- C6: in array mode `emit_sbatch_header` writes the null-sink output
directive together with the array directive `--array=1-N%T` where `N` is
the number of resolved inputs and `T` the throttle; in single mode it
writes the output directive built from the output directory, `%x` (the
job name placeholder), and the log extension, and no chunk of the header
starts with `#SBATCH --array=`. -/
theorem c6_header_output_array (ctx : HeaderCtx) :
    (ctx.arrayMode = true →
      "#SBATCH --output=\"/dev/null\"\n" ∈ emit_sbatch_header ctx
      ∧ ("#SBATCH --array=1-" ++ decString ctx.inputs.length ++ "%"
          ++ decString ctx.throttle ++ "\n") ∈ emit_sbatch_header ctx)
    ∧ (ctx.arrayMode = false →
      ("#SBATCH --output=\"" ++ ctx.outputDir ++ "%x" ++ ctx.logExtension
          ++ "\"\n") ∈ emit_sbatch_header ctx
      ∧ ∀ s ∈ emit_sbatch_header ctx,
          List.isPrefixOf ("#SBATCH --array=" : String).data s.data = false) := by
  constructor
  · intro h
    constructor
    · rw [emit_sbatch_header]
      simp [h]
    · rw [emit_sbatch_header]
      simp [h]
  · intro h
    constructor
    · rw [emit_sbatch_header]
      simp [h]
    · intro s hs
      rw [emit_sbatch_header] at hs
      simp only [h, Bool.false_eq_true, if_false, List.mem_append, List.mem_cons,
        List.not_mem_nil, or_false, mem_ite_nil_iff, or_assoc] at hs
      rcases hs with rfl | rfl | rfl | rfl | rfl | rfl | rfl | rfl
        | ⟨-, rfl⟩ | ⟨-, rfl⟩ | ⟨-, rfl⟩ | rfl
      · decide
      · exact arr_not_prefix_data 'j' _ rfl (by decide)
      · exact arr_not_prefix_data 'o' _ rfl (by decide)
      · exact arr_not_prefix_data 'n' _ rfl (by decide)
      · exact arr_not_prefix_data 'n' _ rfl (by decide)
      · exact arr_not_prefix_data 'c' _ rfl (by decide)
      · exact arr_not_prefix_data 'm' _ rfl (by decide)
      · exact arr_not_prefix_data 'p' _ rfl (by decide)
      · exact arr_not_prefix_data 't' _ rfl (by decide)
      · exact arr_not_prefix_data 'n' _ rfl (by decide)
      · exact arr_not_prefix_data 'e' _ rfl (by decide)
      · decide

/-- C6 witness: a two-input array-mode context with throttle 4 gets the
null sink and `--array=1-2%4`; the same context in single mode gets the
log-path output directive and no array directive. -/
theorem c6_header_output_array_witness :
    "#SBATCH --output=\"/dev/null\"\n"
      ∈ emit_sbatch_header
          ⟨true, "j", ["a", "b"], 4, "/logs/", ".log", 1, 1, 8, "16", "gb",
            16384, "q", "", "", ""⟩
    ∧ "#SBATCH --array=1-2%4\n"
      ∈ emit_sbatch_header
          ⟨true, "j", ["a", "b"], 4, "/logs/", ".log", 1, 1, 8, "16", "gb",
            16384, "q", "", "", ""⟩
    ∧ "#SBATCH --output=\"/logs/%x.log\"\n"
      ∈ emit_sbatch_header
          ⟨false, "j", ["a", "b"], 4, "/logs/", ".log", 1, 1, 8, "16", "gb",
            16384, "q", "", "", ""⟩
    ∧ ∀ s ∈ emit_sbatch_header
          ⟨false, "j", ["a", "b"], 4, "/logs/", ".log", 1, 1, 8, "16", "gb",
            16384, "q", "", "", ""⟩,
        List.isPrefixOf ("#SBATCH --array=" : String).data s.data = false :=
  ⟨((c6_header_output_array
      ⟨true, "j", ["a", "b"], 4, "/logs/", ".log", 1, 1, 8, "16", "gb",
        16384, "q", "", "", ""⟩).1 rfl).1,
    ((c6_header_output_array
      ⟨true, "j", ["a", "b"], 4, "/logs/", ".log", 1, 1, 8, "16", "gb",
        16384, "q", "", "", ""⟩).1 rfl).2,
    ((c6_header_output_array
      ⟨false, "j", ["a", "b"], 4, "/logs/", ".log", 1, 1, 8, "16", "gb",
        16384, "q", "", "", ""⟩).2 rfl).1,
    ((c6_header_output_array
      ⟨false, "j", ["a", "b"], 4, "/logs/", ".log", 1, 1, 8, "16", "gb",
        16384, "q", "", "", ""⟩).2 rfl).2⟩

/-- C9 witness: a missing target among other files, and the empty target
path, are both no-ops. -/
theorem c9_backup_noop_witness :
    (("a" : String) = "" ∨ fsExists [("b", 0)] "a" = false)
    ∧ backup_existing_file "a" true "backup" 5 { files := [("b", 0)], dirs := [] }
        = { files := [("b", 0)], dirs := [] }
    ∧ backup_existing_file "a" true "backup" 5
        (backup_existing_file "a" true "backup" 5 { files := [("b", 0)], dirs := [] })
      = { files := [("b", 0)], dirs := [] } :=
  ⟨by decide,
    (c9_backup_noop "a" true "backup" 5 { files := [("b", 0)], dirs := [] }
      (by decide)).1,
    (c9_backup_noop "a" true "backup" 5 { files := [("b", 0)], dirs := [] }
      (by decide)).2⟩

end SlurmSubmit
